import Mathlib

/-!
Verification of the OpenCL Dijkstra SSSP engine
(`src/OpenCL/src/oclDijkstra/oclDijkstraKernel.cpp`).

Numeric model: the C `float` values are embedded as exact rationals (`ℚ`);
the sentinel `FLT_MAX` is the exact value of the C constant.  The
device-parallel kernels (`dijkstra.cl`) are not part of the repository
sources; where a definition depends on them it is modelled from the spec
and marked as such.  The host-side while loops are embedded with an
explicit fuel argument; the termination theorem shows a fuel of
`vertexCount` iterations suffices.
-/

namespace OclDijkstra

/-- The exact value of the C constant `FLT_MAX`, `(2 - 2⁻²³) · 2¹²⁷`. -/
def FLT_MAX : ℚ := 2 ^ 128 - 2 ^ 104

/-- CSR graph data, from `GraphData` (vertex offsets, edge destinations,
per-edge weights). -/
structure GraphData where
  vertexCount : Nat
  edgeCount : Nat
  vertexArray : List Nat
  edgeArray : List Nat
  weightArray : List ℚ

/-- The CSR invariants of the spec (§3): array lengths match the counts,
every destination id is a valid vertex, offsets are non-decreasing and
bounded by `edgeCount`. -/
def WFGraph (g : GraphData) : Prop :=
  g.vertexArray.length = g.vertexCount ∧
  g.edgeArray.length = g.edgeCount ∧
  g.weightArray.length = g.edgeCount ∧
  (∀ e ∈ g.edgeArray, e < g.vertexCount) ∧
  (∀ i < g.vertexCount,
    (i + 1 < g.vertexCount → g.vertexArray.getD i 0 ≤ g.vertexArray.getD (i + 1) 0) ∧
    g.vertexArray.getD i 0 ≤ g.edgeCount)

/-- Non-negative edge weights (spec §3). -/
def NonNegWeights (g : GraphData) : Prop :=
  ∀ w ∈ g.weightArray, 0 ≤ w

instance (g : GraphData) : Decidable (WFGraph g) := by
  unfold WFGraph; infer_instance

instance (g : GraphData) : Decidable (NonNegWeights g) := by
  unfold NonNegWeights; infer_instance

/-- End of vertex `tid`'s outgoing-edge range: `vertexArray[tid+1]`, or
`edgeCount` for the last vertex (`runDijkstraRef`, lines 643–651). -/
def edgeEnd (g : GraphData) (tid : Nat) : Nat :=
  if tid + 1 < g.vertexCount then g.vertexArray.getD (tid + 1) 0 else g.edgeCount

/-- The per-query working arrays of the reference engine: `maskArray`,
`costArray`, `updatingCostArray`, each sized to `vertexCount`. -/
structure RefState where
  maskArray : List Int
  costArray : List ℚ
  updatingCostArray : List ℚ

/-- Well-formed working set: all three arrays are sized to `vertexCount`. -/
def RefStateWF (g : GraphData) (st : RefState) : Prop :=
  st.maskArray.length = g.vertexCount ∧
  st.costArray.length = g.vertexCount ∧
  st.updatingCostArray.length = g.vertexCount

instance (g : GraphData) (st : RefState) : Decidable (RefStateWF g st) := by
  unfold RefStateWF; infer_instance

def maskAt (st : RefState) (v : Nat) : Int := st.maskArray.getD v 0

def costAt (st : RefState) (v : Nat) : ℚ := st.costArray.getD v 0

def updAt (st : RefState) (v : Nat) : ℚ := st.updatingCostArray.getD v 0

/-- Initialization of the working arrays for one query of the reference
engine (`runDijkstraRef`, lines 617–631): the source vertex gets
`mask = 1`, `cost = 0`, `updatingCost = 0`; every other vertex gets
`mask = 0`, `cost = FLT_MAX`, `updatingCost = FLT_MAX`. -/
def refInitState (g : GraphData) (s : Nat) : RefState where
  maskArray := (List.range g.vertexCount).map (fun v => if v = s then (1 : Int) else 0)
  costArray := (List.range g.vertexCount).map (fun v => if v = s then (0 : ℚ) else FLT_MAX)
  updatingCostArray := (List.range g.vertexCount).map (fun v => if v = s then (0 : ℚ) else FLT_MAX)

/-- `maskArrayEmpty` (lines 108–119): scans the mask array and returns
`false` at the first entry equal to `1`, `true` if none is found. -/
def maskArrayEmpty : List Int → Bool
  | [] => true
  | x :: rest => if x = 1 then false else maskArrayEmpty rest

/-- One relaxation of edge index `e` out of a vertex with cost `ctid`
(`runDijkstraRef`, lines 653–665): if `updatingCost[edgeArray[e]]`
exceeds `ctid + weightArray[e]` it is lowered to that sum.  The weight is
read at the edge index `e`, not at the destination id. -/
def relaxEdgeRef (g : GraphData) (ctid : ℚ) (updating : List ℚ) (e : Nat) : List ℚ :=
  let nid := g.edgeArray.getD e 0
  if updating.getD nid 0 > ctid + g.weightArray.getD e 0 then
    updating.set nid (ctid + g.weightArray.getD e 0)
  else
    updating

/-- The body of the phase-1 loop of the reference engine for one vertex
`tid` (lines 638–666): if `maskArray[tid] ≠ 0`, clear the mask bit and
relax every outgoing edge in `[vertexArray[tid], edgeEnd g tid)`;
otherwise do nothing. -/
def refKernel1Vertex (g : GraphData) (st : RefState) (tid : Nat) : RefState :=
  if maskAt st tid ≠ 0 then
    let edgeStart := g.vertexArray.getD tid 0
    { maskArray := st.maskArray.set tid 0
      costArray := st.costArray
      updatingCostArray :=
        (List.range' edgeStart (edgeEnd g tid - edgeStart)).foldl
          (relaxEdgeRef g (costAt st tid)) st.updatingCostArray }
  else
    st

/-- The full phase-1 sweep of the reference engine (lines 636–667):
the phase-1 body run for `tid = 0, 1, …, vertexCount - 1` in order. -/
def refKernel1Sweep (g : GraphData) (st : RefState) : RefState :=
  (List.range g.vertexCount).foldl (refKernel1Vertex g) st

/-- The body of the phase-2 loop of the reference engine for one vertex
`tid` (lines 672–678): commit `cost[tid] := updatingCost[tid]` and set
`mask[tid] := 1` when `cost[tid] > updatingCost[tid]`; in all cases then
set `updatingCost[tid] := cost[tid]`. -/
def refKernel2Vertex (st : RefState) (tid : Nat) : RefState :=
  let st1 :=
    if costAt st tid > updAt st tid then
      { maskArray := st.maskArray.set tid 1
        costArray := st.costArray.set tid (updAt st tid)
        updatingCostArray := st.updatingCostArray }
    else
      st
  { maskArray := st1.maskArray
    costArray := st1.costArray
    updatingCostArray := st1.updatingCostArray.set tid (costAt st1 tid) }

/-- The full phase-2 sweep of the reference engine (lines 670–679). -/
def refKernel2Sweep (g : GraphData) (st : RefState) : RefState :=
  (List.range g.vertexCount).foldl refKernel2Vertex st

/-- One iteration of the reference engine's while loop: phase 1 then
phase 2. -/
def refIteration (g : GraphData) (st : RefState) : RefState :=
  refKernel2Sweep g (refKernel1Sweep g st)

/-- `k` unconditional phase-1/phase-2 iterations. -/
def refIterate (g : GraphData) : Nat → RefState → RefState
  | 0, st => st
  | k + 1, st => refIterate g k (refIteration g st)

/-- The reference engine's while loop (lines 633–680), embedded with an
explicit fuel bound: while the mask array is not empty, run phase 1 and
phase 2.  The termination theorem shows `vertexCount` fuel suffices. -/
def dijkstraLoop (g : GraphData) : Nat → RefState → RefState
  | 0, st => st
  | fuel + 1, st =>
    if maskArrayEmpty st.maskArray then st
    else dijkstraLoop g fuel (refIteration g st)

/-- One full query of the reference engine: initialize the working
arrays for source `s` and iterate to convergence. -/
def refRunQuery (g : GraphData) (s : Nat) : RefState :=
  dijkstraLoop g g.vertexCount (refInitState g s)

/-- `memcpy(&buf[off], row, …)`: overwrite `buf[off + t]` with `row[t]`
for every index `t` of `row`. -/
def writeRow (buf : List ℚ) (off : Nat) (row : List ℚ) : List ℚ :=
  (List.range row.length).foldl (fun b t => b.set (off + t) (row.getD t 0)) buf

/-- `runDijkstraRef` (lines 605–690): for each query `i`, run the
reference engine from `sourceVertices[i]` and copy the resulting cost
array into row `i` of the output buffer. -/
def runDijkstraRef (g : GraphData) (sourceVertices : List Nat) (outResultCosts : List ℚ)
    (numResults : Nat) : List ℚ :=
  (List.range numResults).foldl
    (fun buf i =>
      writeRow buf (i * g.vertexCount) (refRunQuery g (sourceVertices.getD i 0)).costArray)
    outResultCosts

/-- A path in the CSR graph from `u` to `v` along the listed edge
indices: each step takes an edge index in the CSR range of the current
vertex and moves to its destination. -/
def pathOk (g : GraphData) : Nat → List Nat → Nat → Prop
  | u, [], v => u = v
  | u, e :: es, v =>
    u < g.vertexCount ∧ g.vertexArray.getD u 0 ≤ e ∧ e < edgeEnd g u ∧
      pathOk g (g.edgeArray.getD e 0) es v

/-- Total weight of a list of edge indices. -/
def pathWeight (g : GraphData) (es : List Nat) : ℚ :=
  (es.map (fun e => g.weightArray.getD e 0)).sum

/-- The vertex reached from `u` after following the listed edge
indices. -/
def endOf (g : GraphData) : Nat → List Nat → Nat
  | u, [] => u
  | _, e :: es => endOf g (g.edgeArray.getD e 0) es

/-- `v` is reachable from `s` in the CSR graph. -/
def Reaches (g : GraphData) (s v : Nat) : Prop :=
  ∃ es, pathOk g s es v

/-! ### Basic list lemmas -/

theorem getD_set_self {α} (l : List α) (i : Nat) (a d : α) (h : i < l.length) :
    (l.set i a).getD i d = a := by
  simp [List.getD_eq_getElem?_getD, List.getElem?_set_self, h]

theorem getD_set_ne {α} (l : List α) {i j : Nat} (a d : α) (h : i ≠ j) :
    (l.set i a).getD j d = l.getD j d := by
  simp [List.getD_eq_getElem?_getD, List.getElem?_set_ne h]

theorem getD_of_length_le {α} (l : List α) (i : Nat) (d : α) (h : l.length ≤ i) :
    l.getD i d = d := by
  simp [List.getD_eq_getElem?_getD, List.getElem?_eq_none h]

theorem set_getD_self {α} (l : List α) (i : Nat) (d : α) :
    l.set i (l.getD i d) = l := by
  apply List.ext_getElem
  · simp
  · intro n h1 h2
    rcases eq_or_ne i n with rfl | hne
    · rw [List.getElem_set_self]
      simp [List.getD_eq_getElem?_getD, List.getElem?_eq_getElem h2]
    · rw [List.getElem_set_ne hne]

theorem getD_eq_getElem {α} (l : List α) (i : Nat) (d : α) (h : i < l.length) :
    l.getD i d = l[i] := by
  simp [List.getD_eq_getElem?_getD, List.getElem?_eq_getElem h]

theorem getD_mem {α} (l : List α) (i : Nat) (d : α) (h : i < l.length) :
    l.getD i d ∈ l := by
  rw [getD_eq_getElem l i d h]
  exact List.getElem_mem h

/-! ### `maskArrayEmpty` -/

theorem maskArrayEmpty_iff (l : List Int) :
    maskArrayEmpty l = true ↔ ∀ x ∈ l, x ≠ 1 := by
  induction l with
  | nil => simp [maskArrayEmpty]
  | cons x rest ih =>
    rw [maskArrayEmpty]
    by_cases hx : x = 1 <;> simp [hx, ih]

theorem maskArrayEmpty_of_getD (l : List Int) (h : ∀ i < l.length, l.getD i 0 = 0) :
    maskArrayEmpty l = true := by
  rw [maskArrayEmpty_iff]
  intro x hx
  obtain ⟨i, hi, rfl⟩ := List.getElem_of_mem hx
  have := h i hi
  rw [getD_eq_getElem l i 0 hi] at this
  omega

/-! ### Phase-1 component lemmas -/

theorem relaxEdgeRef_length (g : GraphData) (c : ℚ) (u : List ℚ) (e : Nat) :
    (relaxEdgeRef g c u e).length = u.length := by
  unfold relaxEdgeRef
  dsimp only
  split <;> simp

theorem relaxFold_length (g : GraphData) (c : ℚ) (es : List Nat) (u : List ℚ) :
    (es.foldl (relaxEdgeRef g c) u).length = u.length := by
  induction es generalizing u with
  | nil => rfl
  | cons e es ih => rw [List.foldl_cons, ih, relaxEdgeRef_length]

theorem relaxEdgeRef_getD_le (g : GraphData) (c : ℚ) (u : List ℚ) (e x : Nat) :
    (relaxEdgeRef g c u e).getD x 0 ≤ u.getD x 0 := by
  unfold relaxEdgeRef
  dsimp only
  split
  · rename_i hgt
    rcases Nat.lt_or_ge (g.edgeArray.getD e 0) u.length with hin | hout
    · rcases eq_or_ne (g.edgeArray.getD e 0) x with rfl | hne
      · rw [getD_set_self _ _ _ _ hin]
        exact le_of_lt hgt
      · rw [getD_set_ne _ _ _ hne]
    · rw [List.set_eq_of_length_le hout]
  · exact le_refl _

theorem relaxFold_getD_le (g : GraphData) (c : ℚ) (es : List Nat) (u : List ℚ) (x : Nat) :
    (es.foldl (relaxEdgeRef g c) u).getD x 0 ≤ u.getD x 0 := by
  induction es generalizing u with
  | nil => exact le_refl _
  | cons e es ih =>
    rw [List.foldl_cons]
    exact le_trans (ih _) (relaxEdgeRef_getD_le g c u e x)

theorem relaxEdgeRef_getD_le_offer (g : GraphData) (c : ℚ) (u : List ℚ) (e : Nat)
    (h : g.edgeArray.getD e 0 < u.length) :
    (relaxEdgeRef g c u e).getD (g.edgeArray.getD e 0) 0 ≤ c + g.weightArray.getD e 0 := by
  unfold relaxEdgeRef
  dsimp only
  split
  · rw [getD_set_self _ _ _ _ h]
  · rename_i hle
    exact le_of_not_lt hle

theorem relaxFold_getD_le_offer (g : GraphData) (c : ℚ) (es : List Nat) (u : List ℚ) (e : Nat)
    (he : e ∈ es) (h : g.edgeArray.getD e 0 < u.length) :
    (es.foldl (relaxEdgeRef g c) u).getD (g.edgeArray.getD e 0) 0 ≤
      c + g.weightArray.getD e 0 := by
  induction es generalizing u with
  | nil => cases he
  | cons a es ih =>
    rw [List.foldl_cons]
    rcases List.mem_cons.1 he with rfl | hmem
    · exact le_trans (relaxFold_getD_le g c es _ _)
        (relaxEdgeRef_getD_le_offer g c u e h)
    · exact ih (relaxEdgeRef g c u a) hmem (by rw [relaxEdgeRef_length]; exact h)

theorem relaxEdgeRef_getD_cases (g : GraphData) (c : ℚ) (u : List ℚ) (e x : Nat) :
    (relaxEdgeRef g c u e).getD x 0 = u.getD x 0 ∨
      (g.edgeArray.getD e 0 = x ∧
        (relaxEdgeRef g c u e).getD x 0 = c + g.weightArray.getD e 0) := by
  unfold relaxEdgeRef
  dsimp only
  split
  · rcases Nat.lt_or_ge (g.edgeArray.getD e 0) u.length with hin | hout
    · rcases eq_or_ne (g.edgeArray.getD e 0) x with rfl | hne
      · exact Or.inr ⟨rfl, getD_set_self _ _ _ _ hin⟩
      · exact Or.inl (getD_set_ne _ _ _ hne)
    · rw [List.set_eq_of_length_le hout]
      exact Or.inl rfl
  · exact Or.inl rfl

theorem relaxFold_getD_cases (g : GraphData) (c : ℚ) (es : List Nat) (u : List ℚ) (x : Nat) :
    (es.foldl (relaxEdgeRef g c) u).getD x 0 = u.getD x 0 ∨
      ∃ e ∈ es, g.edgeArray.getD e 0 = x ∧
        (es.foldl (relaxEdgeRef g c) u).getD x 0 = c + g.weightArray.getD e 0 := by
  induction es generalizing u with
  | nil => exact Or.inl rfl
  | cons a es ih =>
    rw [List.foldl_cons]
    rcases ih (relaxEdgeRef g c u a) with h1 | ⟨e, hmem, hdest, hval⟩
    · rcases relaxEdgeRef_getD_cases g c u a x with h2 | ⟨hdest, hval⟩
      · exact Or.inl (h1.trans h2)
      · exact Or.inr ⟨a, List.mem_cons_self a es, hdest, h1.trans hval⟩
    · exact Or.inr ⟨e, List.mem_cons_of_mem a hmem, hdest, hval⟩

/-! ### Phase-1 vertex lemmas -/

theorem refKernel1Vertex_of_mask_eq_zero (g : GraphData) (st : RefState) (tid : Nat)
    (h : maskAt st tid = 0) : refKernel1Vertex g st tid = st := by
  unfold refKernel1Vertex
  simp [h]

theorem refKernel1Vertex_cost (g : GraphData) (st : RefState) (tid : Nat) :
    (refKernel1Vertex g st tid).costArray = st.costArray := by
  unfold refKernel1Vertex
  dsimp only
  split <;> rfl

theorem refKernel1Vertex_maskLen (g : GraphData) (st : RefState) (tid : Nat) :
    (refKernel1Vertex g st tid).maskArray.length = st.maskArray.length := by
  unfold refKernel1Vertex
  dsimp only
  split <;> simp

theorem refKernel1Vertex_updLen (g : GraphData) (st : RefState) (tid : Nat) :
    (refKernel1Vertex g st tid).updatingCostArray.length = st.updatingCostArray.length := by
  unfold refKernel1Vertex
  dsimp only
  split
  · exact relaxFold_length g _ _ _
  · rfl

theorem refKernel1Vertex_mask_getD (g : GraphData) (st : RefState) (tid x : Nat) :
    maskAt (refKernel1Vertex g st tid) x = if x = tid then 0 else maskAt st x := by
  unfold refKernel1Vertex
  dsimp only
  split
  · simp only [maskAt]
    rcases eq_or_ne x tid with rfl | hne
    · rw [if_pos rfl]
      rcases Nat.lt_or_ge x st.maskArray.length with hin | hout
      · exact getD_set_self _ _ _ _ hin
      · rw [List.set_eq_of_length_le hout]
        exact getD_of_length_le _ _ _ hout
    · rw [if_neg hne]
      exact getD_set_ne _ _ _ (Ne.symm hne)
  · rename_i hmask
    push_neg at hmask
    rcases eq_or_ne x tid with rfl | hne
    · rw [if_pos rfl, hmask]
    · rw [if_neg hne]

theorem refKernel1Vertex_upd_le (g : GraphData) (st : RefState) (tid x : Nat) :
    updAt (refKernel1Vertex g st tid) x ≤ updAt st x := by
  unfold refKernel1Vertex
  dsimp only
  split
  · exact relaxFold_getD_le g _ _ _ x
  · exact le_refl _

theorem refKernel1Vertex_upd_offer (g : GraphData) (st : RefState) (tid : Nat)
    (h : maskAt st tid ≠ 0) (e : Nat)
    (h1 : g.vertexArray.getD tid 0 ≤ e) (h2 : e < edgeEnd g tid)
    (h3 : g.edgeArray.getD e 0 < st.updatingCostArray.length) :
    updAt (refKernel1Vertex g st tid) (g.edgeArray.getD e 0) ≤
      costAt st tid + g.weightArray.getD e 0 := by
  unfold refKernel1Vertex
  dsimp only
  rw [if_pos h]
  exact relaxFold_getD_le_offer g _ _ _ e
    (by rw [List.mem_range'_1]; omega) h3

theorem refKernel1Vertex_upd_cases (g : GraphData) (st : RefState) (tid x : Nat) :
    updAt (refKernel1Vertex g st tid) x = updAt st x ∨
      (maskAt st tid ≠ 0 ∧ ∃ e, g.vertexArray.getD tid 0 ≤ e ∧ e < edgeEnd g tid ∧
        g.edgeArray.getD e 0 = x ∧
        updAt (refKernel1Vertex g st tid) x = costAt st tid + g.weightArray.getD e 0) := by
  unfold refKernel1Vertex
  dsimp only
  split
  · rename_i hmask
    rcases relaxFold_getD_cases g (costAt st tid)
      (List.range' (g.vertexArray.getD tid 0) (edgeEnd g tid - g.vertexArray.getD tid 0))
      st.updatingCostArray x with hsame | ⟨e, hmem, hdest, hval⟩
    · exact Or.inl hsame
    · rw [List.mem_range'_1] at hmem
      exact Or.inr ⟨hmask, e, by omega, by omega, hdest, hval⟩
  · exact Or.inl rfl

/-! ### Phase-1 sweep lemmas -/

theorem foldK1_cost (g : GraphData) (L : List Nat) (st : RefState) :
    (L.foldl (refKernel1Vertex g) st).costArray = st.costArray := by
  induction L generalizing st with
  | nil => rfl
  | cons a L ih => rw [List.foldl_cons, ih, refKernel1Vertex_cost]

theorem foldK1_maskLen (g : GraphData) (L : List Nat) (st : RefState) :
    (L.foldl (refKernel1Vertex g) st).maskArray.length = st.maskArray.length := by
  induction L generalizing st with
  | nil => rfl
  | cons a L ih => rw [List.foldl_cons, ih, refKernel1Vertex_maskLen]

theorem foldK1_updLen (g : GraphData) (L : List Nat) (st : RefState) :
    (L.foldl (refKernel1Vertex g) st).updatingCostArray.length =
      st.updatingCostArray.length := by
  induction L generalizing st with
  | nil => rfl
  | cons a L ih => rw [List.foldl_cons, ih, refKernel1Vertex_updLen]

theorem foldK1_mask_zero_preserved (g : GraphData) (L : List Nat) (st : RefState) (x : Nat)
    (h : maskAt st x = 0) : maskAt (L.foldl (refKernel1Vertex g) st) x = 0 := by
  induction L generalizing st with
  | nil => exact h
  | cons a L ih =>
    rw [List.foldl_cons]
    apply ih
    rw [refKernel1Vertex_mask_getD]
    split <;> simp [h]

theorem foldK1_mask_of_mem (g : GraphData) (L : List Nat) (st : RefState) (x : Nat)
    (h : x ∈ L) : maskAt (L.foldl (refKernel1Vertex g) st) x = 0 := by
  induction L generalizing st with
  | nil => cases h
  | cons a L ih =>
    rw [List.foldl_cons]
    rcases eq_or_ne x a with rfl | hne
    · apply foldK1_mask_zero_preserved
      rw [refKernel1Vertex_mask_getD]
      simp
    · exact ih _ (by rcases List.mem_cons.1 h with h | h; exact absurd h hne; exact h)

theorem foldK1_mask_of_not_mem (g : GraphData) (L : List Nat) (st : RefState) (x : Nat)
    (h : x ∉ L) : maskAt (L.foldl (refKernel1Vertex g) st) x = maskAt st x := by
  induction L generalizing st with
  | nil => rfl
  | cons a L ih =>
    rw [List.foldl_cons, ih _ (fun hx => h (List.mem_cons_of_mem a hx)),
      refKernel1Vertex_mask_getD]
    rw [if_neg (fun hx => h (by rw [hx]; exact List.mem_cons_self a L))]

theorem foldK1_upd_le (g : GraphData) (L : List Nat) (st : RefState) (x : Nat) :
    updAt (L.foldl (refKernel1Vertex g) st) x ≤ updAt st x := by
  induction L generalizing st with
  | nil => exact le_refl _
  | cons a L ih =>
    rw [List.foldl_cons]
    exact le_trans (ih _) (refKernel1Vertex_upd_le g st a x)

theorem foldK1_upd_offer (g : GraphData) (L : List Nat) (st : RefState) (tid : Nat)
    (hmem : tid ∈ L) (hmask : maskAt st tid ≠ 0) (e : Nat)
    (h1 : g.vertexArray.getD tid 0 ≤ e) (h2 : e < edgeEnd g tid)
    (h3 : g.edgeArray.getD e 0 < st.updatingCostArray.length) :
    updAt (L.foldl (refKernel1Vertex g) st) (g.edgeArray.getD e 0) ≤
      costAt st tid + g.weightArray.getD e 0 := by
  induction L generalizing st with
  | nil => cases hmem
  | cons a L ih =>
    rw [List.foldl_cons]
    rcases eq_or_ne a tid with rfl | hne
    · exact le_trans (foldK1_upd_le g L _ _)
        (refKernel1Vertex_upd_offer g st a hmask e h1 h2 h3)
    · have htid : tid ∈ L := by
        rcases List.mem_cons.1 hmem with h | h
        · exact absurd h.symm hne
        · exact h
      have hmask1 : maskAt (refKernel1Vertex g st a) tid ≠ 0 := by
        rw [refKernel1Vertex_mask_getD, if_neg (Ne.symm hne)]
        exact hmask
      have := ih (refKernel1Vertex g st a) htid hmask1
        (by rw [refKernel1Vertex_updLen]; exact h3)
      rwa [costAt, refKernel1Vertex_cost] at this

theorem foldK1_upd_cases (g : GraphData) (L : List Nat) (st : RefState) (x : Nat) :
    updAt (L.foldl (refKernel1Vertex g) st) x = updAt st x ∨
      ∃ tid ∈ L, maskAt st tid ≠ 0 ∧ ∃ e, g.vertexArray.getD tid 0 ≤ e ∧ e < edgeEnd g tid ∧
        g.edgeArray.getD e 0 = x ∧
        updAt (L.foldl (refKernel1Vertex g) st) x = costAt st tid + g.weightArray.getD e 0 := by
  induction L generalizing st with
  | nil => exact Or.inl rfl
  | cons a L ih =>
    rw [List.foldl_cons]
    rcases ih (refKernel1Vertex g st a) with hsame | ⟨tid, htid, hmask1, e, he1, he2, hdest, hval⟩
    · rcases refKernel1Vertex_upd_cases g st a x with h2 | ⟨hmask, e, he1, he2, hdest, hval⟩
      · exact Or.inl (hsame.trans h2)
      · exact Or.inr ⟨a, List.mem_cons_self a L, hmask, e, he1, he2, hdest,
          hsame.trans hval⟩
    · have hne : tid ≠ a := by
        intro h
        apply hmask1
        rw [h, refKernel1Vertex_mask_getD, if_pos rfl]
      rw [refKernel1Vertex_mask_getD, if_neg hne] at hmask1
      rw [costAt, refKernel1Vertex_cost] at hval
      exact Or.inr ⟨tid, List.mem_cons_of_mem a htid, hmask1, e, he1, he2, hdest, hval⟩

theorem refKernel1Sweep_cost (g : GraphData) (st : RefState) :
    (refKernel1Sweep g st).costArray = st.costArray :=
  foldK1_cost g _ st

theorem refKernel1Sweep_mask (g : GraphData) (st : RefState) (x : Nat)
    (hx : x < g.vertexCount) : maskAt (refKernel1Sweep g st) x = 0 :=
  foldK1_mask_of_mem g _ st x (List.mem_range.2 hx)

theorem refKernel1Sweep_upd_le (g : GraphData) (st : RefState) (x : Nat) :
    updAt (refKernel1Sweep g st) x ≤ updAt st x :=
  foldK1_upd_le g _ st x

theorem refKernel1Sweep_upd_offer (g : GraphData) (st : RefState) (tid : Nat)
    (htid : tid < g.vertexCount) (hmask : maskAt st tid ≠ 0) (e : Nat)
    (h1 : g.vertexArray.getD tid 0 ≤ e) (h2 : e < edgeEnd g tid)
    (h3 : g.edgeArray.getD e 0 < st.updatingCostArray.length) :
    updAt (refKernel1Sweep g st) (g.edgeArray.getD e 0) ≤
      costAt st tid + g.weightArray.getD e 0 :=
  foldK1_upd_offer g _ st tid (List.mem_range.2 htid) hmask e h1 h2 h3

theorem refKernel1Sweep_upd_cases (g : GraphData) (st : RefState) (x : Nat) :
    updAt (refKernel1Sweep g st) x = updAt st x ∨
      ∃ tid, tid < g.vertexCount ∧ maskAt st tid ≠ 0 ∧
        ∃ e, g.vertexArray.getD tid 0 ≤ e ∧ e < edgeEnd g tid ∧
          g.edgeArray.getD e 0 = x ∧
          updAt (refKernel1Sweep g st) x = costAt st tid + g.weightArray.getD e 0 := by
  rcases foldK1_upd_cases g (List.range g.vertexCount) st x with h | ⟨tid, htid, rest⟩
  · exact Or.inl h
  · exact Or.inr ⟨tid, List.mem_range.1 htid, rest⟩

theorem refKernel1Sweep_maskLen (g : GraphData) (st : RefState) :
    (refKernel1Sweep g st).maskArray.length = st.maskArray.length :=
  foldK1_maskLen g _ st

theorem refKernel1Sweep_updLen (g : GraphData) (st : RefState) :
    (refKernel1Sweep g st).updatingCostArray.length = st.updatingCostArray.length :=
  foldK1_updLen g _ st

/-! ### Phase-2 vertex lemmas -/

theorem refKernel2Vertex_maskLen (st : RefState) (tid : Nat) :
    (refKernel2Vertex st tid).maskArray.length = st.maskArray.length := by
  unfold refKernel2Vertex
  dsimp only
  split <;> simp

theorem refKernel2Vertex_costLen (st : RefState) (tid : Nat) :
    (refKernel2Vertex st tid).costArray.length = st.costArray.length := by
  unfold refKernel2Vertex
  dsimp only
  split <;> simp

theorem refKernel2Vertex_updLen (st : RefState) (tid : Nat) :
    (refKernel2Vertex st tid).updatingCostArray.length = st.updatingCostArray.length := by
  unfold refKernel2Vertex
  dsimp only
  split <;> simp

theorem refKernel2Vertex_mask_ne (st : RefState) (tid x : Nat) (h : x ≠ tid) :
    maskAt (refKernel2Vertex st tid) x = maskAt st x := by
  unfold refKernel2Vertex
  dsimp only
  split
  · exact getD_set_ne _ _ _ (Ne.symm h)
  · rfl

theorem refKernel2Vertex_cost_ne (st : RefState) (tid x : Nat) (h : x ≠ tid) :
    costAt (refKernel2Vertex st tid) x = costAt st x := by
  unfold refKernel2Vertex
  dsimp only
  split
  · exact getD_set_ne _ _ _ (Ne.symm h)
  · rfl

theorem refKernel2Vertex_upd_ne (st : RefState) (tid x : Nat) (h : x ≠ tid) :
    updAt (refKernel2Vertex st tid) x = updAt st x := by
  unfold refKernel2Vertex
  dsimp only
  split <;> exact getD_set_ne _ _ _ (Ne.symm h)

theorem refKernel2Vertex_cost_self (st : RefState) (tid : Nat)
    (h : tid < st.costArray.length) :
    costAt (refKernel2Vertex st tid) tid = min (costAt st tid) (updAt st tid) := by
  rcases lt_or_ge (updAt st tid) (costAt st tid) with hlt | hge
  · rw [min_eq_right (le_of_lt hlt)]
    unfold refKernel2Vertex
    rw [if_pos (show costAt st tid > updAt st tid from hlt)]
    simp only [costAt]
    exact getD_set_self _ _ _ _ h
  · rw [min_eq_left hge]
    unfold refKernel2Vertex
    rw [if_neg (show ¬ costAt st tid > updAt st tid from not_lt.2 hge)]
    rfl

theorem refKernel2Vertex_mask_self (st : RefState) (tid : Nat)
    (h : tid < st.maskArray.length) :
    maskAt (refKernel2Vertex st tid) tid =
      if updAt st tid < costAt st tid then 1 else maskAt st tid := by
  rcases lt_or_ge (updAt st tid) (costAt st tid) with hlt | hge
  · rw [if_pos hlt]
    unfold refKernel2Vertex
    rw [if_pos (show costAt st tid > updAt st tid from hlt)]
    simp only [maskAt]
    exact getD_set_self _ _ _ _ h
  · rw [if_neg (not_lt.2 hge)]
    unfold refKernel2Vertex
    rw [if_neg (show ¬ costAt st tid > updAt st tid from not_lt.2 hge)]
    rfl

theorem refKernel2Vertex_upd_self (st : RefState) (tid : Nat)
    (hc : tid < st.costArray.length) (hu : tid < st.updatingCostArray.length) :
    updAt (refKernel2Vertex st tid) tid = min (costAt st tid) (updAt st tid) := by
  rcases lt_or_ge (updAt st tid) (costAt st tid) with hlt | hge
  · rw [min_eq_right (le_of_lt hlt)]
    unfold refKernel2Vertex
    rw [if_pos (show costAt st tid > updAt st tid from hlt)]
    simp only [updAt, costAt]
    rw [getD_set_self _ _ _ _ hu, getD_set_self _ _ _ _ hc]
  · rw [min_eq_left hge]
    unfold refKernel2Vertex
    rw [if_neg (show ¬ costAt st tid > updAt st tid from not_lt.2 hge)]
    simp only [updAt, costAt]
    exact getD_set_self _ _ _ _ hu

/-! ### Phase-2 sweep lemmas -/

theorem foldK2_maskLen (L : List Nat) (st : RefState) :
    (L.foldl refKernel2Vertex st).maskArray.length = st.maskArray.length := by
  induction L generalizing st with
  | nil => rfl
  | cons a L ih => rw [List.foldl_cons, ih, refKernel2Vertex_maskLen]

theorem foldK2_costLen (L : List Nat) (st : RefState) :
    (L.foldl refKernel2Vertex st).costArray.length = st.costArray.length := by
  induction L generalizing st with
  | nil => rfl
  | cons a L ih => rw [List.foldl_cons, ih, refKernel2Vertex_costLen]

theorem foldK2_updLen (L : List Nat) (st : RefState) :
    (L.foldl refKernel2Vertex st).updatingCostArray.length =
      st.updatingCostArray.length := by
  induction L generalizing st with
  | nil => rfl
  | cons a L ih => rw [List.foldl_cons, ih, refKernel2Vertex_updLen]

theorem foldK2_not_mem (L : List Nat) (st : RefState) (x : Nat) (h : x ∉ L) :
    maskAt (L.foldl refKernel2Vertex st) x = maskAt st x ∧
      costAt (L.foldl refKernel2Vertex st) x = costAt st x ∧
      updAt (L.foldl refKernel2Vertex st) x = updAt st x := by
  induction L generalizing st with
  | nil => exact ⟨rfl, rfl, rfl⟩
  | cons a L ih =>
    have hxa : x ≠ a := fun hx => h (by rw [hx]; exact List.mem_cons_self a L)
    have hxL : x ∉ L := fun hx => h (List.mem_cons_of_mem a hx)
    rw [List.foldl_cons]
    obtain ⟨h1, h2, h3⟩ := ih (refKernel2Vertex st a) hxL
    exact ⟨h1.trans (refKernel2Vertex_mask_ne st a x hxa),
      h2.trans (refKernel2Vertex_cost_ne st a x hxa),
      h3.trans (refKernel2Vertex_upd_ne st a x hxa)⟩

theorem foldK2_char (L : List Nat) (st : RefState) (x : Nat) (hnd : L.Nodup) (hmem : x ∈ L)
    (hm : x < st.maskArray.length) (hc : x < st.costArray.length)
    (hu : x < st.updatingCostArray.length) :
    costAt (L.foldl refKernel2Vertex st) x = min (costAt st x) (updAt st x) ∧
      updAt (L.foldl refKernel2Vertex st) x = min (costAt st x) (updAt st x) ∧
      maskAt (L.foldl refKernel2Vertex st) x =
        if updAt st x < costAt st x then 1 else maskAt st x := by
  induction L generalizing st with
  | nil => cases hmem
  | cons a L ih =>
    rw [List.nodup_cons] at hnd
    rw [List.foldl_cons]
    rcases eq_or_ne x a with rfl | hne
    · obtain ⟨h1, h2, h3⟩ := foldK2_not_mem L (refKernel2Vertex st x) x hnd.1
      refine ⟨?_, ?_, ?_⟩
      · rw [h2, refKernel2Vertex_cost_self st x hc]
      · rw [h3, refKernel2Vertex_upd_self st x hc hu]
      · rw [h1, refKernel2Vertex_mask_self st x hm]
    · have hxL : x ∈ L := by
        rcases List.mem_cons.1 hmem with h | h
        · exact absurd h hne
        · exact h
      obtain ⟨h1, h2, h3⟩ := ih (refKernel2Vertex st a) hnd.2 hxL
        (by rw [refKernel2Vertex_maskLen]; exact hm)
        (by rw [refKernel2Vertex_costLen]; exact hc)
        (by rw [refKernel2Vertex_updLen]; exact hu)
      rw [refKernel2Vertex_cost_ne st a x hne, refKernel2Vertex_upd_ne st a x hne] at h1 h2
      rw [refKernel2Vertex_cost_ne st a x hne, refKernel2Vertex_upd_ne st a x hne,
        refKernel2Vertex_mask_ne st a x hne] at h3
      exact ⟨h1, h2, h3⟩

theorem refKernel2Sweep_char (g : GraphData) (st : RefState) (x : Nat)
    (hx : x < g.vertexCount) (hw : RefStateWF g st) :
    costAt (refKernel2Sweep g st) x = min (costAt st x) (updAt st x) ∧
      updAt (refKernel2Sweep g st) x = min (costAt st x) (updAt st x) ∧
      maskAt (refKernel2Sweep g st) x =
        if updAt st x < costAt st x then 1 else maskAt st x :=
  foldK2_char (List.range g.vertexCount) st x (List.nodup_range _) (List.mem_range.2 hx)
    (hw.1 ▸ hx) (hw.2.1 ▸ hx) (hw.2.2 ▸ hx)

/-! ### Well-formedness preservation -/

theorem RefStateWF_refInitState (g : GraphData) (s : Nat) :
    RefStateWF g (refInitState g s) := by
  refine ⟨?_, ?_, ?_⟩ <;> simp [refInitState]

theorem RefStateWF_k1Sweep (g : GraphData) (st : RefState) (hw : RefStateWF g st) :
    RefStateWF g (refKernel1Sweep g st) :=
  ⟨refKernel1Sweep_maskLen g st ▸ hw.1,
    (refKernel1Sweep_cost g st).symm ▸ hw.2.1,
    refKernel1Sweep_updLen g st ▸ hw.2.2⟩

theorem RefStateWF_k2Sweep (g : GraphData) (st : RefState) (hw : RefStateWF g st) :
    RefStateWF g (refKernel2Sweep g st) :=
  ⟨foldK2_maskLen _ st ▸ hw.1, foldK2_costLen _ st ▸ hw.2.1, foldK2_updLen _ st ▸ hw.2.2⟩

theorem RefStateWF_iteration (g : GraphData) (st : RefState) (hw : RefStateWF g st) :
    RefStateWF g (refIteration g st) :=
  RefStateWF_k2Sweep g _ (RefStateWF_k1Sweep g st hw)

theorem RefStateWF_iterate (g : GraphData) (k : Nat) (st : RefState) (hw : RefStateWF g st) :
    RefStateWF g (refIterate g k st) := by
  induction k generalizing st with
  | zero => exact hw
  | succ k ih => exact ih _ (RefStateWF_iteration g st hw)

theorem RefStateWF_dijkstraLoop (g : GraphData) (fuel : Nat) (st : RefState)
    (hw : RefStateWF g st) : RefStateWF g (dijkstraLoop g fuel st) := by
  induction fuel generalizing st with
  | zero => exact hw
  | succ fuel ih =>
    rw [dijkstraLoop]
    split
    · exact hw
    · exact ih _ (RefStateWF_iteration g st hw)

/-! ### Iteration characterization -/

theorem costAt_k1Sweep (g : GraphData) (st : RefState) (x : Nat) :
    costAt (refKernel1Sweep g st) x = costAt st x := by
  simp only [costAt, refKernel1Sweep_cost]

theorem refIteration_cost (g : GraphData) (st : RefState) (x : Nat)
    (hx : x < g.vertexCount) (hw : RefStateWF g st) :
    costAt (refIteration g st) x =
      min (costAt st x) (updAt (refKernel1Sweep g st) x) := by
  have h := (refKernel2Sweep_char g (refKernel1Sweep g st) x hx
    (RefStateWF_k1Sweep g st hw)).1
  rw [costAt_k1Sweep] at h
  exact h

theorem refIteration_upd (g : GraphData) (st : RefState) (x : Nat)
    (hx : x < g.vertexCount) (hw : RefStateWF g st) :
    updAt (refIteration g st) x =
      min (costAt st x) (updAt (refKernel1Sweep g st) x) := by
  have h := (refKernel2Sweep_char g (refKernel1Sweep g st) x hx
    (RefStateWF_k1Sweep g st hw)).2.1
  rw [costAt_k1Sweep] at h
  exact h

theorem refIteration_mask (g : GraphData) (st : RefState) (x : Nat)
    (hx : x < g.vertexCount) (hw : RefStateWF g st) :
    maskAt (refIteration g st) x =
      if updAt (refKernel1Sweep g st) x < costAt st x then 1 else 0 := by
  have h := (refKernel2Sweep_char g (refKernel1Sweep g st) x hx
    (RefStateWF_k1Sweep g st hw)).2.2
  rw [costAt_k1Sweep, refKernel1Sweep_mask g st x hx] at h
  exact h

/-! ### Cost monotonicity -/

theorem refKernel2Vertex_cost_le (st : RefState) (tid x : Nat) :
    costAt (refKernel2Vertex st tid) x ≤ costAt st x := by
  unfold refKernel2Vertex
  dsimp only
  split
  · rename_i hgt
    rcases eq_or_ne x tid with rfl | hne
    · rcases Nat.lt_or_ge x st.costArray.length with hin | hout
      · simp only [costAt]
        rw [getD_set_self _ _ _ _ hin]
        exact le_of_lt hgt
      · simp only [costAt]
        rw [List.set_eq_of_length_le hout]
    · simp only [costAt]
      rw [getD_set_ne _ _ _ (Ne.symm hne)]
  · exact le_refl _

theorem foldK2_cost_le (L : List Nat) (st : RefState) (x : Nat) :
    costAt (L.foldl refKernel2Vertex st) x ≤ costAt st x := by
  induction L generalizing st with
  | nil => exact le_refl _
  | cons a L ih =>
    rw [List.foldl_cons]
    exact le_trans (ih _) (refKernel2Vertex_cost_le st a x)

theorem refIteration_cost_le (g : GraphData) (st : RefState) (x : Nat) :
    costAt (refIteration g st) x ≤ costAt st x := by
  unfold refIteration refKernel2Sweep
  calc costAt ((List.range g.vertexCount).foldl refKernel2Vertex (refKernel1Sweep g st)) x
      ≤ costAt (refKernel1Sweep g st) x := foldK2_cost_le _ _ x
    _ = costAt st x := costAt_k1Sweep g st x

theorem refIterate_cost_le (g : GraphData) (k : Nat) (st : RefState) (x : Nat) :
    costAt (refIterate g k st) x ≤ costAt st x := by
  induction k generalizing st with
  | zero => exact le_refl _
  | succ k ih =>
    rw [refIterate]
    exact le_trans (ih _) (refIteration_cost_le g st x)

theorem dijkstraLoop_cost_le (g : GraphData) (fuel : Nat) (st : RefState) (x : Nat) :
    costAt (dijkstraLoop g fuel st) x ≤ costAt st x := by
  induction fuel generalizing st with
  | zero => exact le_refl _
  | succ fuel ih =>
    rw [dijkstraLoop]
    split
    · exact le_refl _
    · exact le_trans (ih _) (refIteration_cost_le g st x)

/-! ### Path lemmas -/

theorem weight_getD_nonneg (g : GraphData) (hng : NonNegWeights g) (e : Nat) :
    0 ≤ g.weightArray.getD e 0 := by
  rcases Nat.lt_or_ge e g.weightArray.length with hin | hout
  · exact hng _ (getD_mem _ _ _ hin)
  · rw [getD_of_length_le _ _ _ hout]

theorem pathWeight_nil (g : GraphData) : pathWeight g [] = 0 := rfl

theorem pathWeight_cons (g : GraphData) (e : Nat) (es : List Nat) :
    pathWeight g (e :: es) = g.weightArray.getD e 0 + pathWeight g es := by
  simp [pathWeight]

theorem pathWeight_append (g : GraphData) (l1 l2 : List Nat) :
    pathWeight g (l1 ++ l2) = pathWeight g l1 + pathWeight g l2 := by
  simp [pathWeight]

theorem pathWeight_nonneg (g : GraphData) (hng : NonNegWeights g) (es : List Nat) :
    0 ≤ pathWeight g es := by
  induction es with
  | nil => exact le_refl _
  | cons e es ih =>
    rw [pathWeight_cons]
    exact add_nonneg (weight_getD_nonneg g hng e) ih

theorem pathWeight_take_le (g : GraphData) (hng : NonNegWeights g) (es : List Nat) (i : Nat) :
    pathWeight g (es.take i) ≤ pathWeight g es := by
  conv_rhs => rw [← List.take_append_drop i es]
  rw [pathWeight_append]
  exact le_add_of_nonneg_right (pathWeight_nonneg g hng _)

theorem pathOk_append (g : GraphData) (l1 l2 : List Nat) (u v : Nat) :
    pathOk g u (l1 ++ l2) v ↔ ∃ m, pathOk g u l1 m ∧ pathOk g m l2 v := by
  induction l1 generalizing u with
  | nil =>
    simp only [List.nil_append]
    constructor
    · intro h
      exact ⟨u, rfl, h⟩
    · rintro ⟨m, rfl, h⟩
      exact h
  | cons e l1 ih =>
    simp only [List.cons_append, pathOk]
    constructor
    · rintro ⟨h1, h2, h3, h4⟩
      obtain ⟨m, hm1, hm2⟩ := (ih _).1 h4
      exact ⟨m, ⟨h1, h2, h3, hm1⟩, hm2⟩
    · rintro ⟨m, ⟨h1, h2, h3, h4⟩, h5⟩
      exact ⟨h1, h2, h3, (ih _).2 ⟨m, h4, h5⟩⟩

theorem pathOk_split (g : GraphData) (u v : Nat) (es : List Nat) (h : pathOk g u es v)
    (i : Nat) :
    pathOk g u (es.take i) (endOf g u (es.take i)) ∧
      pathOk g (endOf g u (es.take i)) (es.drop i) v := by
  induction es generalizing u i with
  | nil =>
    cases h
    simp only [List.take_nil, List.drop_nil]
    exact ⟨rfl, rfl⟩
  | cons e es ih =>
    cases i with
    | zero =>
      simp only [List.take_zero, List.drop_zero]
      exact ⟨rfl, h⟩
    | succ j =>
      obtain ⟨h1, h2, h3, h4⟩ := h
      obtain ⟨ih1, ih2⟩ := ih _ h4 j
      simp only [List.take_succ_cons, List.drop_succ_cons]
      exact ⟨⟨h1, h2, h3, by rw [endOf]; exact ih1⟩, by rw [endOf]; exact ih2⟩

theorem edgeEnd_le (g : GraphData) (hwf : WFGraph g) (u : Nat) :
    edgeEnd g u ≤ g.edgeCount := by
  unfold edgeEnd
  split
  · rename_i hlt
    exact ((hwf.2.2.2.2 (u + 1) hlt).2 :)
  · exact le_refl _

theorem dest_lt (g : GraphData) (hwf : WFGraph g) (e : Nat) (he : e < g.edgeCount) :
    g.edgeArray.getD e 0 < g.vertexCount :=
  hwf.2.2.2.1 _ (getD_mem _ _ _ (hwf.2.1 ▸ he))

theorem pathOk_end_lt (g : GraphData) (hwf : WFGraph g) (u v : Nat) (es : List Nat)
    (hu : u < g.vertexCount) (h : pathOk g u es v) : v < g.vertexCount := by
  induction es generalizing u with
  | nil => cases h; exact hu
  | cons e es ih =>
    obtain ⟨h1, h2, h3, h4⟩ := h
    exact ih _ (dest_lt g hwf e (lt_of_lt_of_le h3 (edgeEnd_le g hwf u))) h4

theorem path_splice (g : GraphData) (hng : NonNegWeights g) (s v : Nat) (es : List Nat)
    (h : pathOk g s es v) (i j : Nat) (hij : i < j) (hj : j ≤ es.length)
    (heq : endOf g s (es.take i) = endOf g s (es.take j)) :
    pathOk g s (es.take i ++ es.drop j) v ∧
      pathWeight g (es.take i ++ es.drop j) ≤ pathWeight g es ∧
      (es.take i ++ es.drop j).length < es.length := by
  obtain ⟨hp1, _⟩ := pathOk_split g s v es h i
  obtain ⟨_, hp4⟩ := pathOk_split g s v es h j
  rw [← heq] at hp4
  refine ⟨(pathOk_append g _ _ s v).2 ⟨_, hp1, hp4⟩, ?_, ?_⟩
  · rw [pathWeight_append]
    conv_rhs => rw [← List.take_append_drop j es]
    rw [pathWeight_append]
    have htake : pathWeight g (es.take i) ≤ pathWeight g (es.take j) := by
      have : es.take i = (es.take j).take i := by
        rw [List.take_take, min_eq_left (le_of_lt hij)]
      rw [this]
      exact pathWeight_take_le g hng _ i
    exact add_le_add htake (le_refl _)
  · rw [List.length_append, List.length_take, List.length_drop]
    omega

theorem path_shorten (g : GraphData) (hwf : WFGraph g) (hng : NonNegWeights g)
    (s : Nat) (hs : s < g.vertexCount) :
    ∀ k es v, es.length ≤ k → pathOk g s es v →
      ∃ es2, pathOk g s es2 v ∧ pathWeight g es2 ≤ pathWeight g es ∧
        es2.length + 1 ≤ g.vertexCount := by
  intro k
  induction k with
  | zero =>
    intro es v hlen h
    rw [Nat.le_zero, List.length_eq_zero] at hlen
    subst hlen
    exact ⟨[], h, le_refl _, by simp only [List.length_nil]; omega⟩
  | succ k ih =>
    intro es v hlen h
    by_cases hshort : es.length + 1 ≤ g.vertexCount
    · exact ⟨es, h, le_refl _, hshort⟩
    · push_neg at hshort
      have hend : ∀ i : Fin (es.length + 1), endOf g s (es.take i.val) < g.vertexCount := by
        intro i
        exact pathOk_end_lt g hwf s _ _ hs (pathOk_split g s v es h i.val).1
      have hcard : Fintype.card (Fin g.vertexCount) < Fintype.card (Fin (es.length + 1)) := by
        simp only [Fintype.card_fin]
        omega
      obtain ⟨a, b, hab, hfab⟩ := Fintype.exists_ne_map_eq_of_card_lt
        (fun i : Fin (es.length + 1) => (⟨endOf g s (es.take i.val), hend i⟩ : Fin g.vertexCount))
        hcard
      have key : ∀ i j : Fin (es.length + 1), i.val < j.val →
          endOf g s (es.take i.val) = endOf g s (es.take j.val) →
          ∃ es2, pathOk g s es2 v ∧ pathWeight g es2 ≤ pathWeight g es ∧
            es2.length + 1 ≤ g.vertexCount := by
        intro i j hij heq
        obtain ⟨hp, hw, hl⟩ := path_splice g hng s v es h i.val j.val hij
          (by omega) heq
        obtain ⟨es2, h2p, h2w, h2l⟩ := ih _ v (by omega) hp
        exact ⟨es2, h2p, le_trans h2w hw, h2l⟩
      have hfab' : endOf g s (es.take a.val) = endOf g s (es.take b.val) := by
        have := congrArg Fin.val hfab
        simpa using this
      rcases Nat.lt_or_ge a.val b.val with hlt | hge
      · exact key a b hlt hfab'
      · have hlt : b.val < a.val := by
          rcases Nat.lt_or_ge b.val a.val with h' | h'
          · exact h'
          · exact absurd (Fin.val_injective (le_antisymm h' hge)) hab
        exact key b a hlt hfab'.symm

/-! ### Initial-state lemmas -/

theorem getD_map_range {α} (n : Nat) (f : Nat → α) (v : Nat) (d : α) :
    (((List.range n).map f).getD v d) = if v < n then f v else d := by
  rcases Nat.lt_or_ge v n with hin | hout
  · rw [if_pos hin, getD_eq_getElem _ _ _ (by simpa using hin)]
    simp
  · rw [if_neg (not_lt.2 hout), getD_of_length_le _ _ _ (by simpa using hout)]

theorem refInitState_mask (g : GraphData) (s v : Nat) :
    maskAt (refInitState g s) v =
      if v < g.vertexCount then (if v = s then 1 else 0) else 0 := by
  unfold refInitState maskAt
  dsimp only
  rw [getD_map_range]

theorem refInitState_cost (g : GraphData) (s v : Nat) :
    costAt (refInitState g s) v =
      if v < g.vertexCount then (if v = s then 0 else FLT_MAX) else 0 := by
  unfold refInitState costAt
  dsimp only
  rw [getD_map_range]

theorem refInitState_upd (g : GraphData) (s v : Nat) :
    updAt (refInitState g s) v =
      if v < g.vertexCount then (if v = s then 0 else FLT_MAX) else 0 := by
  unfold refInitState updAt
  dsimp only
  rw [getD_map_range]

theorem FLT_MAX_pos : 0 < FLT_MAX := by
  norm_num [FLT_MAX]

/-! ### The per-query loop invariant

`LoopInv g s k st` packages the facts that hold about the working set
after `k` phase-1/phase-2 iterations of the reference engine from the
initial state of source `s`:  well-formed lengths; a binary mask;
`updatingCost = cost` (C3's consequence); non-negative costs; every
masked vertex and every non-sentinel cost is achieved by a path with at
most `k` edges; `cost` is below the weight of every path with at most
`k` edges; and every unmasked vertex has already offered its cost to
its successors. -/
def LoopInv (g : GraphData) (s k : Nat) (st : RefState) : Prop :=
  RefStateWF g st ∧
  (∀ v, maskAt st v = 0 ∨ maskAt st v = 1) ∧
  (∀ v, updAt st v = costAt st v) ∧
  (∀ v, 0 ≤ costAt st v) ∧
  (∀ v, maskAt st v ≠ 0 →
    ∃ es, pathOk g s es v ∧ es.length ≤ k ∧ costAt st v = pathWeight g es) ∧
  (∀ v, v < g.vertexCount → costAt st v = FLT_MAX ∨
    ∃ es, pathOk g s es v ∧ es.length ≤ k ∧ costAt st v = pathWeight g es) ∧
  (∀ v es, pathOk g s es v → es.length ≤ k → costAt st v ≤ pathWeight g es) ∧
  (∀ u, u < g.vertexCount → maskAt st u = 0 →
    ∀ e, g.vertexArray.getD u 0 ≤ e → e < edgeEnd g u →
      costAt st (g.edgeArray.getD e 0) ≤ costAt st u + g.weightArray.getD e 0)

theorem LoopInv_init (g : GraphData) (hwf : WFGraph g) (hng : NonNegWeights g)
    (s : Nat) (hs : s < g.vertexCount) : LoopInv g s 0 (refInitState g s) := by
  refine ⟨RefStateWF_refInitState g s, ?_, ?_, ?_, ?_, ?_, ?_, ?_⟩
  · intro v
    rw [refInitState_mask]
    split
    · split
      · exact Or.inr rfl
      · exact Or.inl rfl
    · exact Or.inl rfl
  · intro v
    rw [refInitState_upd, refInitState_cost]
  · intro v
    rw [refInitState_cost]
    split
    · split
      · exact le_refl _
      · exact le_of_lt FLT_MAX_pos
    · exact le_refl _
  · intro v hv
    rw [refInitState_mask] at hv
    by_cases hvn : v < g.vertexCount
    · rw [if_pos hvn] at hv
      by_cases hvs : v = s
      · subst hvs
        refine ⟨[], rfl, by simp, ?_⟩
        rw [refInitState_cost, if_pos hvn, if_pos rfl, pathWeight_nil]
      · rw [if_neg hvs] at hv
        exact absurd rfl hv
    · rw [if_neg hvn] at hv
      exact absurd rfl hv
  · intro v hvn
    by_cases hvs : v = s
    · subst hvs
      refine Or.inr ⟨[], rfl, by simp, ?_⟩
      rw [refInitState_cost, if_pos hvn, if_pos rfl, pathWeight_nil]
    · left
      rw [refInitState_cost, if_pos hvn, if_neg hvs]
  · intro v es hp hlen
    rw [Nat.le_zero, List.length_eq_zero] at hlen
    subst hlen
    cases hp
    rw [refInitState_cost, if_pos hs, if_pos rfl, pathWeight_nil]
  · intro u hun hmask e he1 he2
    have hus : u ≠ s := by
      intro h
      rw [refInitState_mask, if_pos hun, h, if_pos rfl] at hmask
      exact one_ne_zero hmask
    have hd : g.edgeArray.getD e 0 < g.vertexCount :=
      dest_lt g hwf e (lt_of_lt_of_le he2 (edgeEnd_le g hwf u))
    have hw : 0 ≤ g.weightArray.getD e 0 := weight_getD_nonneg g hng e
    rw [refInitState_cost, refInitState_cost, if_pos hd, if_pos hun, if_neg hus]
    split
    · calc (0 : ℚ) ≤ FLT_MAX := le_of_lt FLT_MAX_pos
        _ ≤ FLT_MAX + g.weightArray.getD e 0 := le_add_of_nonneg_right hw
    · exact le_add_of_nonneg_right hw

/-! ### Invariant preservation -/

theorem maskAt_oob (g : GraphData) (st : RefState) (v : Nat) (hw : RefStateWF g st)
    (h : g.vertexCount ≤ v) : maskAt st v = 0 :=
  getD_of_length_le _ _ _ (le_trans (le_of_eq hw.1) h)

theorem costAt_oob (g : GraphData) (st : RefState) (v : Nat) (hw : RefStateWF g st)
    (h : g.vertexCount ≤ v) : costAt st v = 0 :=
  getD_of_length_le _ _ _ (le_trans (le_of_eq hw.2.1) h)

theorem updAt_oob (g : GraphData) (st : RefState) (v : Nat) (hw : RefStateWF g st)
    (h : g.vertexCount ≤ v) : updAt st v = 0 :=
  getD_of_length_le _ _ _ (le_trans (le_of_eq hw.2.2) h)

theorem maskAt_ne_zero_lt (g : GraphData) (st : RefState) (v : Nat) (hw : RefStateWF g st)
    (h : maskAt st v ≠ 0) : v < g.vertexCount := by
  by_contra hge
  exact h (maskAt_oob g st v hw (le_of_not_lt hge))

theorem pathOk_single (g : GraphData) (u e v : Nat) (hu : u < g.vertexCount)
    (h1 : g.vertexArray.getD u 0 ≤ e) (h2 : e < edgeEnd g u)
    (hd : g.edgeArray.getD e 0 = v) : pathOk g u [e] v := by
  simp only [pathOk]
  exact ⟨hu, h1, h2, hd⟩

theorem pathWeight_single (g : GraphData) (e : Nat) :
    pathWeight g [e] = g.weightArray.getD e 0 := by
  simp [pathWeight]

theorem LoopInv_step (g : GraphData) (hwf : WFGraph g) (hng : NonNegWeights g)
    (s k : Nat) (hs : s < g.vertexCount) (st : RefState) (hinv : LoopInv g s k st) :
    LoopInv g s (k + 1) (refIteration g st) := by
  obtain ⟨hWF, hbin, hInv2, hnn, hMF, hLB, hUB, hINV⟩ := hinv
  have hWF' : RefStateWF g (refIteration g st) := RefStateWF_iteration g st hWF
  have hu1nn : ∀ v, 0 ≤ updAt (refKernel1Sweep g st) v := by
    intro v
    rcases refKernel1Sweep_upd_cases g st v with hsame | ⟨tid, htid, hmask, e, _, _, _, hval⟩
    · rw [hsame, hInv2]
      exact hnn v
    · rw [hval]
      exact add_nonneg (hnn tid) (weight_getD_nonneg g hng e)
  -- the path-achievement fact for a phase-1 offer
  have hoffer_path : ∀ v, v < g.vertexCount →
      ∀ tid e, tid < g.vertexCount → maskAt st tid ≠ 0 →
        g.vertexArray.getD tid 0 ≤ e → e < edgeEnd g tid → g.edgeArray.getD e 0 = v →
        ∃ es, pathOk g s es v ∧ es.length ≤ k + 1 ∧
          costAt st tid + g.weightArray.getD e 0 = pathWeight g es := by
    intro v hv tid e htid hmask he1 he2 hdest
    obtain ⟨es, hp, hlen, hc⟩ := hMF tid hmask
    refine ⟨es ++ [e], ?_, ?_, ?_⟩
    · exact (pathOk_append g _ _ s v).2 ⟨tid, hp, pathOk_single g tid e v htid he1 he2 hdest⟩
    · rw [List.length_append, List.length_singleton]
      omega
    · rw [pathWeight_append, pathWeight_single, hc]
  refine ⟨hWF', ?_, ?_, ?_, ?_, ?_, ?_, ?_⟩
  · -- mask is binary
    intro v
    rcases Nat.lt_or_ge v g.vertexCount with hv | hv
    · rw [refIteration_mask g st v hv hWF]
      split
      · exact Or.inr rfl
      · exact Or.inl rfl
    · exact Or.inl (maskAt_oob g _ v hWF' hv)
  · -- updatingCost = cost
    intro v
    rcases Nat.lt_or_ge v g.vertexCount with hv | hv
    · rw [refIteration_upd g st v hv hWF, refIteration_cost g st v hv hWF]
    · rw [updAt_oob g _ v hWF' hv, costAt_oob g _ v hWF' hv]
  · -- non-negative costs
    intro v
    rcases Nat.lt_or_ge v g.vertexCount with hv | hv
    · rw [refIteration_cost g st v hv hWF]
      exact le_min (hnn v) (hu1nn v)
    · rw [costAt_oob g _ v hWF' hv]
  · -- masked vertices are path-achieved
    intro v hv
    have hvn : v < g.vertexCount := maskAt_ne_zero_lt g _ v hWF' hv
    rw [refIteration_mask g st v hvn hWF] at hv
    have hlt : updAt (refKernel1Sweep g st) v < costAt st v := by
      by_contra hge
      rw [if_neg hge] at hv
      exact hv rfl
    have hcost : costAt (refIteration g st) v = updAt (refKernel1Sweep g st) v := by
      rw [refIteration_cost g st v hvn hWF]
      exact min_eq_right (le_of_lt hlt)
    rcases refKernel1Sweep_upd_cases g st v with hsame | ⟨tid, htid, hmask, e, he1, he2, hdest, hval⟩
    · rw [hsame, hInv2] at hlt
      exact absurd hlt (lt_irrefl _)
    · obtain ⟨es, hp, hlen, hc⟩ := hoffer_path v hvn tid e htid hmask he1 he2 hdest
      exact ⟨es, hp, hlen, by rw [hcost, hval, hc]⟩
  · -- costs are FLT_MAX or path-achieved
    intro v hvn
    have hcost := refIteration_cost g st v hvn hWF
    rcases le_total (costAt st v) (updAt (refKernel1Sweep g st) v) with hle | hge
    · rw [min_eq_left hle] at hcost
      rcases hLB v hvn with hfm | ⟨es, hp, hlen, hc⟩
      · exact Or.inl (hcost.trans hfm)
      · exact Or.inr ⟨es, hp, by omega, hcost.trans hc⟩
    · rw [min_eq_right hge] at hcost
      rcases refKernel1Sweep_upd_cases g st v with hsame | ⟨tid, htid, hmask, e, he1, he2, hdest, hval⟩
      · rw [hsame, hInv2] at hcost
        rcases hLB v hvn with hfm | ⟨es, hp, hlen, hc⟩
        · exact Or.inl (hcost.trans hfm)
        · exact Or.inr ⟨es, hp, by omega, hcost.trans hc⟩
      · obtain ⟨es, hp, hlen, hc⟩ := hoffer_path v hvn tid e htid hmask he1 he2 hdest
        exact Or.inr ⟨es, hp, hlen, by rw [hcost, hval, hc]⟩
  · -- cost is below every path of length at most k+1
    intro v es hp hlen
    rcases Nat.lt_or_ge es.length (k + 1) with hshort | hlong
    · exact le_trans (refIteration_cost_le g st v)
        (hUB v es hp (by omega))
    · have hne : es ≠ [] := by
        intro h
        rw [h] at hlong
        simp at hlong
      have hsnoc := List.dropLast_append_getLast hne
      set e := es.getLast hne with hedef
      obtain ⟨m, hpm, hpe⟩ := (pathOk_append g _ _ s v).1 (by rw [hsnoc]; exact hp)
      simp only [pathOk] at hpe
      obtain ⟨hm, he1, he2, hdest⟩ := hpe
      have hvn : v < g.vertexCount := pathOk_end_lt g hwf s v es hs hp
      have hdlen : es.dropLast.length ≤ k := by
        have := List.length_dropLast es
        omega
      have hubm : costAt st m ≤ pathWeight g es.dropLast := hUB m es.dropLast hpm hdlen
      have hweq : pathWeight g es = pathWeight g es.dropLast + g.weightArray.getD e 0 := by
        conv_lhs => rw [← hsnoc]
        rw [pathWeight_append, pathWeight_single]
      have hcost' : costAt (refIteration g st) v ≤ costAt st v ∧
          costAt (refIteration g st) v ≤ updAt (refKernel1Sweep g st) v := by
        rw [refIteration_cost g st v hvn hWF]
        exact ⟨min_le_left _ _, min_le_right _ _⟩
      by_cases hmask : maskAt st m = 0
      · have := hINV m hm hmask e he1 he2
        rw [hdest] at this
        calc costAt (refIteration g st) v ≤ costAt st v := hcost'.1
          _ ≤ costAt st m + g.weightArray.getD e 0 := this
          _ ≤ pathWeight g es.dropLast + g.weightArray.getD e 0 := by
              exact add_le_add hubm (le_refl _)
          _ = pathWeight g es := hweq.symm
      · have hoff := refKernel1Sweep_upd_offer g st m hm hmask e he1 he2
          (by rw [hWF.2.2]
              rw [hdest]
              exact hvn)
        rw [hdest] at hoff
        calc costAt (refIteration g st) v ≤ updAt (refKernel1Sweep g st) v := hcost'.2
          _ ≤ costAt st m + g.weightArray.getD e 0 := hoff
          _ ≤ pathWeight g es.dropLast + g.weightArray.getD e 0 := add_le_add hubm (le_refl _)
          _ = pathWeight g es := hweq.symm
  · -- settled vertices have offered their costs
    intro u hun hmask e he1 he2
    have hd : g.edgeArray.getD e 0 < g.vertexCount :=
      dest_lt g hwf e (lt_of_lt_of_le he2 (edgeEnd_le g hwf u))
    rw [refIteration_mask g st u hun hWF] at hmask
    have hgeu : costAt st u ≤ updAt (refKernel1Sweep g st) u := by
      by_contra hlt
      rw [if_pos (lt_of_not_le hlt)] at hmask
      exact one_ne_zero hmask
    have hcu : costAt (refIteration g st) u = costAt st u := by
      rw [refIteration_cost g st u hun hWF]
      exact min_eq_left hgeu
    rw [hcu]
    by_cases hm0 : maskAt st u = 0
    · calc costAt (refIteration g st) (g.edgeArray.getD e 0)
          ≤ costAt st (g.edgeArray.getD e 0) := refIteration_cost_le g st _
        _ ≤ costAt st u + g.weightArray.getD e 0 := hINV u hun hm0 e he1 he2
    · have hoff := refKernel1Sweep_upd_offer g st u hun hm0 e he1 he2
        (by rw [hWF.2.2]; exact hd)
      calc costAt (refIteration g st) (g.edgeArray.getD e 0)
          ≤ updAt (refKernel1Sweep g st) (g.edgeArray.getD e 0) := by
            rw [refIteration_cost g st _ hd hWF]
            exact min_le_right _ _
        _ ≤ costAt st u + g.weightArray.getD e 0 := hoff

/-! ### Termination within `vertexCount` iterations -/

theorem LoopInv_iterate (g : GraphData) (hwf : WFGraph g) (hng : NonNegWeights g)
    (s : Nat) (hs : s < g.vertexCount) (m : Nat) :
    ∀ k st, LoopInv g s k st → LoopInv g s (k + m) (refIterate g m st) := by
  induction m with
  | zero => exact fun k st h => h
  | succ m ih =>
    intro k st h
    rw [refIterate]
    have heq : k + (m + 1) = (k + 1) + m := by omega
    rw [heq]
    exact ih (k + 1) _ (LoopInv_step g hwf hng s k hs st h)

theorem refIterate_succ' (g : GraphData) (k : Nat) (st : RefState) :
    refIterate g (k + 1) st = refIteration g (refIterate g k st) := by
  induction k generalizing st with
  | zero => rfl
  | succ k ih =>
    rw [refIterate, ih, refIterate]

theorem refIterate_mask_empty (g : GraphData) (hwf : WFGraph g) (hng : NonNegWeights g)
    (s : Nat) (hs : s < g.vertexCount) (v : Nat) :
    maskAt (refIterate g g.vertexCount (refInitState g s)) v = 0 := by
  have hn1 : g.vertexCount = (g.vertexCount - 1) + 1 := by omega
  have hinvF : LoopInv g s (g.vertexCount - 1)
      (refIterate g (g.vertexCount - 1) (refInitState g s)) := by
    have := LoopInv_iterate g hwf hng s hs (g.vertexCount - 1) 0 _
      (LoopInv_init g hwf hng s hs)
    simpa using this
  set stF := refIterate g (g.vertexCount - 1) (refInitState g s) with hstF
  obtain ⟨hWF, hbin, hInv2, hnn, hMF, hLB, hUB, hINV⟩ := hinvF
  have hstep : refIterate g g.vertexCount (refInitState g s) = refIteration g stF := by
    rw [hn1, refIterate_succ']
  rw [hstep]
  rcases Nat.lt_or_ge v g.vertexCount with hv | hv
  · rw [refIteration_mask g stF v hv hWF]
    have hnolower : ¬ updAt (refKernel1Sweep g stF) v < costAt stF v := by
      rcases refKernel1Sweep_upd_cases g stF v with hsame |
        ⟨tid, htid, hmask, e, he1, he2, hdest, hval⟩
      · rw [hsame, hInv2]
        exact lt_irrefl _
      · rw [hval]
        obtain ⟨es, hp, hlen, hc⟩ := hMF tid hmask
        have hp' : pathOk g s (es ++ [e]) v :=
          (pathOk_append g _ _ s v).2 ⟨tid, hp, pathOk_single g tid e v htid he1 he2 hdest⟩
        obtain ⟨es2, h2p, h2w, h2l⟩ := path_shorten g hwf hng s hs (es ++ [e]).length
          (es ++ [e]) v (le_refl _) hp'
        have hub2 : costAt stF v ≤ pathWeight g es2 := hUB v es2 h2p (by omega)
        have hw2 : pathWeight g (es ++ [e]) = costAt stF tid + g.weightArray.getD e 0 := by
          rw [pathWeight_append, pathWeight_single, hc]
        rw [← hw2]
        exact not_lt.2 (le_trans hub2 h2w)
    rw [if_neg hnolower]
  · exact maskAt_oob g _ v (RefStateWF_iteration g stF hWF) hv

/-! ### Empty mask is a fixed point -/

theorem foldK1_id (g : GraphData) (L : List Nat) (st : RefState)
    (h : ∀ t ∈ L, maskAt st t = 0) : L.foldl (refKernel1Vertex g) st = st := by
  induction L with
  | nil => rfl
  | cons a L ih =>
    rw [List.foldl_cons, refKernel1Vertex_of_mask_eq_zero g st a (h a (List.mem_cons_self a L))]
    exact ih (fun t ht => h t (List.mem_cons_of_mem a ht))

theorem refKernel2Vertex_id (st : RefState) (tid : Nat)
    (h : updAt st tid = costAt st tid) : refKernel2Vertex st tid = st := by
  unfold refKernel2Vertex
  rw [if_neg (show ¬ costAt st tid > updAt st tid from by rw [h]; exact lt_irrefl _)]
  dsimp only
  have hset : st.updatingCostArray.set tid (costAt st tid) = st.updatingCostArray := by
    rw [show costAt st tid = st.updatingCostArray.getD tid 0 from h.symm]
    exact set_getD_self _ _ _
  rw [hset]

theorem foldK2_id (L : List Nat) (st : RefState)
    (h : ∀ t, updAt st t = costAt st t) : L.foldl refKernel2Vertex st = st := by
  induction L with
  | nil => rfl
  | cons a L ih =>
    rw [List.foldl_cons, refKernel2Vertex_id st a (h a)]
    exact ih

theorem refIteration_id (g : GraphData) (st : RefState)
    (h1 : ∀ t, maskAt st t = 0) (h2 : ∀ t, updAt st t = costAt st t) :
    refIteration g st = st := by
  unfold refIteration refKernel1Sweep refKernel2Sweep
  rw [foldK1_id g _ st (fun t _ => h1 t)]
  exact foldK2_id _ st h2

/-! ### Loop facts through the fuel bound -/

theorem dijkstraLoop_inv (g : GraphData) (hwf : WFGraph g) (hng : NonNegWeights g)
    (s : Nat) (hs : s < g.vertexCount) (fuel : Nat) :
    ∀ k st, LoopInv g s k st → ∃ j, LoopInv g s j (dijkstraLoop g fuel st) := by
  induction fuel with
  | zero => exact fun k st h => ⟨k, h⟩
  | succ fuel ih =>
    intro k st h
    rw [dijkstraLoop]
    split
    · exact ⟨k, h⟩
    · exact ih (k + 1) _ (LoopInv_step g hwf hng s k hs st h)

theorem dijkstraLoop_mask_empty (g : GraphData) (hwf : WFGraph g) (hng : NonNegWeights g)
    (s : Nat) (hs : s < g.vertexCount) (fuel : Nat) :
    ∀ k st, LoopInv g s k st →
      maskArrayEmpty (refIterate g fuel st).maskArray = true →
      maskArrayEmpty (dijkstraLoop g fuel st).maskArray = true := by
  induction fuel with
  | zero => exact fun k st _ hemp => hemp
  | succ fuel ih =>
    intro k st h hemp
    rw [dijkstraLoop]
    split
    · assumption
    · rw [refIterate] at hemp
      exact ih (k + 1) _ (LoopInv_step g hwf hng s k hs st h) hemp

theorem refRunQuery_mask_empty (g : GraphData) (hwf : WFGraph g) (hng : NonNegWeights g)
    (s : Nat) (hs : s < g.vertexCount) :
    maskArrayEmpty (refRunQuery g s).maskArray = true := by
  unfold refRunQuery
  apply dijkstraLoop_mask_empty g hwf hng s hs g.vertexCount 0 _
    (LoopInv_init g hwf hng s hs)
  apply maskArrayEmpty_of_getD
  intro i hi
  exact refIterate_mask_empty g hwf hng s hs i

theorem refRunQuery_inv (g : GraphData) (hwf : WFGraph g) (hng : NonNegWeights g)
    (s : Nat) (hs : s < g.vertexCount) : ∃ j, LoopInv g s j (refRunQuery g s) :=
  dijkstraLoop_inv g hwf hng s hs g.vertexCount 0 _ (LoopInv_init g hwf hng s hs)

theorem LoopInv_cost_source (g : GraphData) (s k : Nat) (st : RefState)
    (h : LoopInv g s k st) : costAt st s = 0 := by
  have hub : costAt st s ≤ 0 := by
    have := h.2.2.2.2.2.2.1 s [] (show pathOk g s [] s from rfl) (by simp)
    rwa [pathWeight_nil] at this
  exact le_antisymm hub (h.2.2.2.1 s)

theorem LoopInv_unreachable (g : GraphData) (s k : Nat) (st : RefState)
    (h : LoopInv g s k st) (v : Nat) (hv : v < g.vertexCount)
    (hur : ¬ Reaches g s v) : costAt st v = FLT_MAX := by
  rcases h.2.2.2.2.2.1 v hv with hfm | ⟨es, hp, _, _⟩
  · exact hfm
  · exact absurd ⟨es, hp⟩ hur

theorem refRunQuery_cost_source (g : GraphData) (hwf : WFGraph g) (hng : NonNegWeights g)
    (s : Nat) (hs : s < g.vertexCount) : costAt (refRunQuery g s) s = 0 := by
  obtain ⟨j, hinv⟩ := refRunQuery_inv g hwf hng s hs
  exact LoopInv_cost_source g s j _ hinv

theorem refRunQuery_unreachable (g : GraphData) (hwf : WFGraph g) (hng : NonNegWeights g)
    (s : Nat) (hs : s < g.vertexCount) (v : Nat) (hv : v < g.vertexCount)
    (hur : ¬ Reaches g s v) : costAt (refRunQuery g s) v = FLT_MAX := by
  obtain ⟨j, hinv⟩ := refRunQuery_inv g hwf hng s hs
  exact LoopInv_unreachable g s j _ hinv v hv hur

theorem refRunQuery_WF (g : GraphData) (s : Nat) : RefStateWF g (refRunQuery g s) :=
  RefStateWF_dijkstraLoop g _ _ (RefStateWF_refInitState g s)

/-! ### Output-buffer lemmas -/

theorem writeFold_length (off : Nat) (row : List ℚ) (L : List Nat) (buf : List ℚ) :
    (L.foldl (fun b t => b.set (off + t) (row.getD t 0)) buf).length = buf.length := by
  induction L generalizing buf with
  | nil => rfl
  | cons a L ih =>
    rw [List.foldl_cons, ih]
    simp

theorem writeFold_getD_of_ne (off : Nat) (row : List ℚ) (L : List Nat) (buf : List ℚ)
    (x : Nat) (h : ∀ t ∈ L, off + t ≠ x) :
    (L.foldl (fun b t => b.set (off + t) (row.getD t 0)) buf).getD x 0 = buf.getD x 0 := by
  induction L generalizing buf with
  | nil => rfl
  | cons a L ih =>
    rw [List.foldl_cons, ih _ (fun t ht => h t (List.mem_cons_of_mem a ht))]
    exact getD_set_ne _ _ _ (h a (List.mem_cons_self a L))

theorem writeFold_getD_mem (off : Nat) (row : List ℚ) (L : List Nat) (buf : List ℚ)
    (t : Nat) (hnd : L.Nodup) (hmem : t ∈ L) (hin : off + t < buf.length) :
    (L.foldl (fun b t => b.set (off + t) (row.getD t 0)) buf).getD (off + t) 0 =
      row.getD t 0 := by
  induction L generalizing buf with
  | nil => cases hmem
  | cons a L ih =>
    rw [List.nodup_cons] at hnd
    rw [List.foldl_cons]
    rcases eq_or_ne t a with rfl | hne
    · rw [writeFold_getD_of_ne off row L _ (off + t)
        (fun u hu hut => hnd.1 (by
          have : u = t := by omega
          rwa [this] at hu))]
      exact getD_set_self _ _ _ _ hin
    · exact ih _ hnd.2 (by
        rcases List.mem_cons.1 hmem with h | h
        · exact absurd h hne
        · exact h) (by simpa using hin)

theorem writeRow_length (buf : List ℚ) (off : Nat) (row : List ℚ) :
    (writeRow buf off row).length = buf.length :=
  writeFold_length off row _ buf

theorem writeRow_getD_lt (buf : List ℚ) (off : Nat) (row : List ℚ) (x : Nat) (hx : x < off) :
    (writeRow buf off row).getD x 0 = buf.getD x 0 :=
  writeFold_getD_of_ne off row _ buf x (fun t _ => by omega)

theorem writeRow_getD_in (buf : List ℚ) (off : Nat) (row : List ℚ) (t : Nat)
    (ht : t < row.length) (hin : off + t < buf.length) :
    (writeRow buf off row).getD (off + t) 0 = row.getD t 0 :=
  writeFold_getD_mem off row _ buf t (List.nodup_range _) (List.mem_range.2 ht) hin

theorem runDijkstraRef_zero (g : GraphData) (srcs : List Nat) (out : List ℚ) :
    runDijkstraRef g srcs out 0 = out := rfl

theorem runDijkstraRef_succ (g : GraphData) (srcs : List Nat) (out : List ℚ) (m : Nat) :
    runDijkstraRef g srcs out (m + 1) =
      writeRow (runDijkstraRef g srcs out m) (m * g.vertexCount)
        (refRunQuery g (srcs.getD m 0)).costArray := by
  unfold runDijkstraRef
  rw [List.range_succ, List.foldl_append]
  rfl

theorem runDijkstraRef_length (g : GraphData) (srcs : List Nat) (out : List ℚ)
    (numResults : Nat) : (runDijkstraRef g srcs out numResults).length = out.length := by
  induction numResults with
  | zero => rfl
  | succ m ih => rw [runDijkstraRef_succ, writeRow_length, ih]

theorem runDijkstraRef_getD (g : GraphData) (srcs : List Nat) (out : List ℚ)
    (numResults : Nat) (hout : numResults * g.vertexCount ≤ out.length) (i v : Nat)
    (hi : i < numResults) (hv : v < g.vertexCount) :
    (runDijkstraRef g srcs out numResults).getD (i * g.vertexCount + v) 0 =
      costAt (refRunQuery g (srcs.getD i 0)) v := by
  induction numResults with
  | zero => omega
  | succ m ih =>
    have hrowlen : (refRunQuery g (srcs.getD m 0)).costArray.length = g.vertexCount :=
      (refRunQuery_WF g _).2.1
    rw [runDijkstraRef_succ]
    rcases eq_or_ne i m with rfl | hne
    · rw [writeRow_getD_in _ _ _ v (by rw [hrowlen]; exact hv)
        (by rw [runDijkstraRef_length]
            have : (i + 1) * g.vertexCount ≤ out.length := hout
            nlinarith)]
      rfl
    · have him : i < m := by omega
      rw [writeRow_getD_lt _ _ _ _ (by nlinarith)]
      exact ih (by nlinarith) him

/-! ### Vertices with no incoming edges are unreachable -/

theorem not_reaches_of_not_mem (g : GraphData) (hwf : WFGraph g) (s v : Nat)
    (hv : v ∉ g.edgeArray) (hvs : v ≠ s) : ¬ Reaches g s v := by
  rintro ⟨es, hp⟩
  rcases List.eq_nil_or_concat es with rfl | ⟨l, e, rfl⟩
  · exact hvs (show s = v from hp).symm
  · rw [List.concat_eq_append] at hp
    obtain ⟨m, _, hpe⟩ := (pathOk_append g _ _ s v).1 hp
    simp only [pathOk] at hpe
    obtain ⟨hm, _, he2, hdest⟩ := hpe
    have he : e < g.edgeArray.length := by
      rw [hwf.2.1]
      exact lt_of_lt_of_le he2 (edgeEnd_le g hwf m)
    have hmem : g.edgeArray.getD e 0 ∈ g.edgeArray := getD_mem _ _ _ he
    rw [hdest] at hmem
    exact hv hmem

/-! ### The device engine

The OpenCL kernel source `dijkstra.cl` is not among the repository
sources; only its host-side launches are.  The three kernels are
therefore modelled from the spec, and the host control flow of
`runDijkstra` is taken from the source. -/

/-- Modelled from the spec: the `initializeBuffers` kernel of
`dijkstra.cl` is missing from the sources.  Spec §4.2: "given a source
vertex index, set `mask[source]=1, cost[source]=0,
updatingCost[source]=0`; all other entries `mask=0,
cost=updatingCost=+∞`". -/
def initializeBuffers (g : GraphData) (sourceVertex : Nat) : RefState where
  maskArray := (List.range g.vertexCount).map (fun v => if v = sourceVertex then (1 : Int) else 0)
  costArray :=
    (List.range g.vertexCount).map (fun v => if v = sourceVertex then (0 : ℚ) else FLT_MAX)
  updatingCostArray :=
    (List.range g.vertexCount).map (fun v => if v = sourceVertex then (0 : ℚ) else FLT_MAX)

/-- Modelled from the spec: one vertex lane of the missing
`OCL_SSSP_KERNEL1` kernel.  Spec §4.3 phase 1: "for every vertex `tid`
whose `mask[tid] == 1`, clear `mask[tid]`, then for every outgoing edge
`(tid → nid)` with weight `w`, set `updatingCost[nid] =
min(updatingCost[nid], cost[tid] + w)`.  Vertices with `mask[tid]==0`
are skipped entirely".  Outgoing edges are the CSR range of §3. -/
def specKernel1Vertex (g : GraphData) (st : RefState) (tid : Nat) : RefState :=
  if maskAt st tid = 1 then
    { maskArray := st.maskArray.set tid 0
      costArray := st.costArray
      updatingCostArray :=
        (List.range' (g.vertexArray.getD tid 0)
            (edgeEnd g tid - g.vertexArray.getD tid 0)).foldl
          (fun u e =>
            u.set (g.edgeArray.getD e 0)
              (min (u.getD (g.edgeArray.getD e 0) 0) (costAt st tid + g.weightArray.getD e 0)))
          st.updatingCostArray }
  else st

/-- Modelled from the spec: the missing `OCL_SSSP_KERNEL1` kernel as a
full phase-1 sweep.  Per §4.3/§5 both phases are full,
barrier-synchronized sweeps over all vertices; the data-parallel lanes
are embedded as one in-order sweep (one serialization of the racing
lanes). -/
def OCL_SSSP_KERNEL1 (g : GraphData) (st : RefState) : RefState :=
  (List.range g.vertexCount).foldl (specKernel1Vertex g) st

/-- Modelled from the spec: the missing `OCL_SSSP_KERNEL2` kernel.  Spec
§4.3 phase 2: "for every vertex `tid`, if `cost[tid] > updatingCost[tid]`,
commit `cost[tid] = updatingCost[tid]` and set `mask[tid] = 1`; always
set `updatingCost[tid] = cost[tid]`". -/
def OCL_SSSP_KERNEL2 (g : GraphData) (st : RefState) : RefState :=
  (List.range g.vertexCount).foldl
    (fun st tid =>
      let st1 :=
        if costAt st tid > updAt st tid then
          { maskArray := st.maskArray.set tid 1
            costArray := st.costArray.set tid (updAt st tid)
            updatingCostArray := st.updatingCostArray }
        else st
      { maskArray := st1.maskArray
        costArray := st1.costArray
        updatingCostArray := st1.updatingCostArray.set tid (costAt st1 tid) })
    st

/-- `sizeof(int)`: 4 bytes on the ILP32/LP64 platforms OpenCL targets
(`sizeof(unsigned char)` is 1 by definition). -/
def sizeofInt : Nat := 4

/-- The mask read-back of `runDijkstra` (lines 330–333 and 352–355):
`clEnqueueReadBuffer` is asked for `sizeof(unsigned char) * vertexCount`
bytes of the device mask buffer, whose entries are `int`s.  Only the
first `vertexCount / sizeofInt` entries of the host copy therefore
receive device data; every entry beyond the transferred prefix keeps
whatever the host array held before the read.  (When `sizeofInt` does
not divide `vertexCount`, the one entry that receives only some of its
bytes is modelled as stale as well; the divergence recorded at claim C1
uses a `vertexCount` divisible by `sizeofInt`, so no partially written
entry is involved.) -/
def readMaskPartial (vertexCount : Nat) (deviceMask hostMask : List Int) : List Int :=
  (List.range (vertexCount / sizeofInt)).foldl
    (fun h i => h.set i (deviceMask.getD i 0)) hostMask

/-- The host mask array as freshly allocated by `malloc(sizeof(int) *
vertexCount)` (line 314).  C leaves its contents unspecified; the model
fixes one realizable outcome, zero bytes (the usual content of fresh
pages).  The divergence recorded at claim C1 already occurs under this
realization; a nonzero stale entry would instead make the host loop spin
forever, since entries beyond the transferred prefix are never
overwritten. -/
def maskArrayHostInit (vertexCount : Nat) : List Int :=
  List.replicate vertexCount 0

/-- The host-side while loop of `runDijkstra` (lines 335–356): while the
host copy of the mask array is not empty, launch kernel 1 then kernel 2
and read the mask back again — where each read-back transfers only the
undersized byte count (`readMaskPartial`), so the convergence test
inspects the transferred prefix of the device mask plus the host array's
stale tail.  Returns the final device state and host mask.  Embedded
with an explicit fuel bound; the divergence recorded at claim C1 exits
the loop at its first test, independent of the fuel. -/
def deviceLoop (g : GraphData) : Nat → RefState → List Int → RefState × List Int
  | 0, st, hostMask => (st, hostMask)
  | fuel + 1, st, hostMask =>
    if maskArrayEmpty hostMask then (st, hostMask)
    else
      let st1 := OCL_SSSP_KERNEL2 g (OCL_SSSP_KERNEL1 g st)
      deviceLoop g fuel st1 (readMaskPartial g.vertexCount st1.maskArray hostMask)

/-- `runDijkstra` (lines 233–381): the host mask array is allocated once
(line 314); then for each query `i`, initialize the device buffers from
`sourceVertices[i]`, read the mask back (partially — lines 330–333),
iterate kernel 1/kernel 2 until the host mask copy is empty, and read
the cost array back into row `i` of the output buffer (a full-size read,
line 360).  The host mask array persists across queries, as in the
source. -/
def runDijkstra (g : GraphData) (sourceVertices : List Nat) (outResultCosts : List ℚ)
    (numResults : Nat) : List ℚ :=
  ((List.range numResults).foldl
    (fun acc i =>
      let st0 := initializeBuffers g (sourceVertices.getD i 0)
      let host0 := readMaskPartial g.vertexCount st0.maskArray acc.2
      let res := deviceLoop g g.vertexCount st0 host0
      (writeRow acc.1 (i * g.vertexCount) res.1.costArray, res.2))
    (outResultCosts, maskArrayHostInit g.vertexCount)).1

/-! ### The multi-device partitioner -/

/-- `DevicePlan` (lines 34–57): the per-device workload record.  The C
struct stores the pointers `&sourceVertices[offset]` and
`&outResultCosts[offset * vertexCount]`; the embedding stores the query
offset, from which both pointers are recovered. -/
structure DevicePlan where
  sourceOffset : Nat
  numResults : Nat

/-- The partition loop of `runDijkstraMultiGPU` (lines 426–451): each
device receives `numResults / deviceCount` queries at consecutive
offsets, and any remaining work is added to the last device. -/
def buildPlans (numResults deviceCount : Nat) : List DevicePlan :=
  let resultsPerDevice := numResults / deviceCount
  let plansOffset :=
    (List.range deviceCount).foldl
      (fun acc _ =>
        (acc.1 ++ [DevicePlan.mk acc.2 resultsPerDevice], acc.2 + resultsPerDevice))
      ([], 0)
  let plans := plansOffset.1
  let offset := plansOffset.2
  if offset < numResults then
    let lastPlan := plans.getD (deviceCount - 1) (DevicePlan.mk 0 0)
    plans.set (deviceCount - 1)
      (DevicePlan.mk lastPlan.sourceOffset (lastPlan.numResults + (numResults - offset)))
  else plans

/-- `dijkstraThread` (lines 198–204): one worker runs `runDijkstra` on
its plan's slice.  The C passes pointers `&sourceVertices[off]` and
`&outResultCosts[off * vertexCount]`; the embedding passes the dropped
lists and reattaches the untouched prefix of the output buffer. -/
def dijkstraThread (g : GraphData) (sourceVertices : List Nat) (buf : List ℚ)
    (p : DevicePlan) : List ℚ :=
  buf.take (p.sourceOffset * g.vertexCount) ++
    runDijkstra g (sourceVertices.drop p.sourceOffset)
      (buf.drop (p.sourceOffset * g.vertexCount)) p.numResults

/-- `runDijkstraMultiGPU` (lines 407–467): if no device is present,
return with the output buffer untouched; otherwise partition the
queries, run one worker per device (each owning a disjoint slice;
embedded in enumeration order, which is sound because the slices are
disjoint), and join. -/
def runDijkstraMultiGPU (g : GraphData) (deviceCount : Nat) (sourceVertices : List Nat)
    (outResultCosts : List ℚ) (numResults : Nat) : List ℚ :=
  if deviceCount = 0 then outResultCosts
  else
    (buildPlans numResults deviceCount).foldl (dijkstraThread g sourceVertices) outResultCosts

/-- The partition loop of `runDijkstraMultiGPUandCPU` (lines 522–570)
with the hardcoded `ratioCPUtoGPU = 1` (line 494; the float division
`numResults / 1.0f` is then exact): every one of the
`gpuDeviceCount + cpuDeviceCount` devices in GPU-then-CPU order receives
`gpuResults / totalDeviceCount` queries where `gpuResults = numResults`,
every CPU device then receives the `cpuResults = 0` share, and any
remaining work is added to the last device. -/
def buildPlansGPUandCPU (numResults gpuDeviceCount cpuDeviceCount : Nat) : List DevicePlan :=
  let gpuResults := numResults / 1
  let cpuResults := numResults - gpuResults
  let totalDeviceCount := gpuDeviceCount + cpuDeviceCount
  let resultsPerGPU := gpuResults / totalDeviceCount
  let afterGPU :=
    (List.range gpuDeviceCount).foldl
      (fun acc _ => (acc.1 ++ [DevicePlan.mk acc.2 resultsPerGPU], acc.2 + resultsPerGPU))
      (([] : List DevicePlan), 0)
  let resultsPerCPU := cpuResults
  let plansOffset :=
    (List.range cpuDeviceCount).foldl
      (fun acc _ => (acc.1 ++ [DevicePlan.mk acc.2 resultsPerCPU], acc.2 + resultsPerCPU))
      afterGPU
  let plans := plansOffset.1
  let offset := plansOffset.2
  if offset < numResults then
    let lastPlan := plans.getD (totalDeviceCount - 1) (DevicePlan.mk 0 0)
    plans.set (totalDeviceCount - 1)
      (DevicePlan.mk lastPlan.sourceOffset (lastPlan.numResults + (numResults - offset)))
  else plans

/-- `runDijkstraMultiGPUandCPU` (lines 490–586): returns with the output
buffer untouched when either context has no device; otherwise partitions
the queries across GPU and CPU devices and runs one worker per
device. -/
def runDijkstraMultiGPUandCPU (g : GraphData) (gpuDeviceCount cpuDeviceCount : Nat)
    (sourceVertices : List Nat) (outResultCosts : List ℚ) (numResults : Nat) : List ℚ :=
  if gpuDeviceCount = 0 then outResultCosts
  else if cpuDeviceCount = 0 then outResultCosts
  else
    (buildPlansGPUandCPU numResults gpuDeviceCount cpuDeviceCount).foldl
      (dijkstraThread g sourceVertices) outResultCosts

/-! ### The spec-modelled device engine refines the reference engine -/

theorem initializeBuffers_eq (g : GraphData) (s : Nat) :
    initializeBuffers g s = refInitState g s := rfl

theorem OCL_SSSP_KERNEL2_eq (g : GraphData) (st : RefState) :
    OCL_SSSP_KERNEL2 g st = refKernel2Sweep g st := rfl

theorem relaxEdgeRef_eq_min (g : GraphData) (c : ℚ) (u : List ℚ) (e : Nat) :
    relaxEdgeRef g c u e =
      u.set (g.edgeArray.getD e 0)
        (min (u.getD (g.edgeArray.getD e 0) 0) (c + g.weightArray.getD e 0)) := by
  unfold relaxEdgeRef
  dsimp only
  split
  · rename_i h
    rw [min_eq_right (le_of_lt h)]
  · rename_i h
    push_neg at h
    rw [min_eq_left h]
    exact (set_getD_self _ _ _).symm

theorem specKernel1Vertex_eq (g : GraphData) (st : RefState) (tid : Nat)
    (hbin : maskAt st tid = 0 ∨ maskAt st tid = 1) :
    specKernel1Vertex g st tid = refKernel1Vertex g st tid := by
  unfold specKernel1Vertex refKernel1Vertex
  rcases hbin with h0 | h1
  · have hc1 : ¬ maskAt st tid = 1 := by rw [h0]; decide
    have hc2 : ¬ maskAt st tid ≠ 0 := by rw [h0]; decide
    rw [if_neg hc1, if_neg hc2]
  · have hc2 : maskAt st tid ≠ 0 := by rw [h1]; decide
    rw [if_pos h1, if_pos hc2]
    have hfun : (fun (u : List ℚ) (e : Nat) =>
        u.set (g.edgeArray.getD e 0)
          (min (u.getD (g.edgeArray.getD e 0) 0)
            (costAt st tid + g.weightArray.getD e 0))) =
        relaxEdgeRef g (costAt st tid) := by
      funext u e
      exact (relaxEdgeRef_eq_min g _ u e).symm
    rw [hfun]

theorem refKernel1Vertex_mask_binary (g : GraphData) (st : RefState) (tid : Nat)
    (h : ∀ t, maskAt st t = 0 ∨ maskAt st t = 1) (t : Nat) :
    maskAt (refKernel1Vertex g st tid) t = 0 ∨ maskAt (refKernel1Vertex g st tid) t = 1 := by
  rw [refKernel1Vertex_mask_getD]
  split
  · exact Or.inl rfl
  · exact h t

theorem foldK1_spec_eq (g : GraphData) (L : List Nat) (st : RefState)
    (h : ∀ t, maskAt st t = 0 ∨ maskAt st t = 1) :
    L.foldl (specKernel1Vertex g) st = L.foldl (refKernel1Vertex g) st := by
  induction L generalizing st with
  | nil => rfl
  | cons a L ih =>
    rw [List.foldl_cons, List.foldl_cons, specKernel1Vertex_eq g st a (h a)]
    exact ih _ (refKernel1Vertex_mask_binary g st a h)

theorem OCL_SSSP_KERNEL1_eq (g : GraphData) (st : RefState)
    (h : ∀ t, maskAt st t = 0 ∨ maskAt st t = 1) :
    OCL_SSSP_KERNEL1 g st = refKernel1Sweep g st :=
  foldK1_spec_eq g _ st h

theorem refKernel2Vertex_mask_binary (st : RefState) (tid : Nat)
    (h : ∀ t, maskAt st t = 0 ∨ maskAt st t = 1) (t : Nat) :
    maskAt (refKernel2Vertex st tid) t = 0 ∨ maskAt (refKernel2Vertex st tid) t = 1 := by
  rcases eq_or_ne t tid with rfl | hne
  · rcases lt_or_ge (updAt st t) (costAt st t) with hlt | hge
    · unfold refKernel2Vertex
      rw [if_pos (show costAt st t > updAt st t from hlt)]
      simp only [maskAt]
      rcases Nat.lt_or_ge t st.maskArray.length with hin | hout
      · rw [getD_set_self _ _ _ _ hin]
        exact Or.inr rfl
      · rw [List.set_eq_of_length_le hout]
        exact h t
    · unfold refKernel2Vertex
      rw [if_neg (show ¬ costAt st t > updAt st t from not_lt.2 hge)]
      exact h t
  · rw [refKernel2Vertex_mask_ne st tid t hne]
    exact h t

theorem foldK1_mask_binary (g : GraphData) (L : List Nat) (st : RefState)
    (h : ∀ t, maskAt st t = 0 ∨ maskAt st t = 1) (t : Nat) :
    maskAt (L.foldl (refKernel1Vertex g) st) t = 0 ∨
      maskAt (L.foldl (refKernel1Vertex g) st) t = 1 := by
  induction L generalizing st with
  | nil => exact h t
  | cons a L ih =>
    rw [List.foldl_cons]
    exact ih _ (refKernel1Vertex_mask_binary g st a h)

theorem foldK2_mask_binary (L : List Nat) (st : RefState)
    (h : ∀ t, maskAt st t = 0 ∨ maskAt st t = 1) (t : Nat) :
    maskAt (L.foldl refKernel2Vertex st) t = 0 ∨
      maskAt (L.foldl refKernel2Vertex st) t = 1 := by
  induction L generalizing st with
  | nil => exact h t
  | cons a L ih =>
    rw [List.foldl_cons]
    exact ih _ (refKernel2Vertex_mask_binary st a h)

theorem refIteration_mask_binary (g : GraphData) (st : RefState)
    (h : ∀ t, maskAt st t = 0 ∨ maskAt st t = 1) (t : Nat) :
    maskAt (refIteration g st) t = 0 ∨ maskAt (refIteration g st) t = 1 :=
  foldK2_mask_binary _ _ (fun u => foldK1_mask_binary g _ st h u) t

theorem refInitState_mask_binary (g : GraphData) (s : Nat) (t : Nat) :
    maskAt (refInitState g s) t = 0 ∨ maskAt (refInitState g s) t = 1 := by
  rw [refInitState_mask]
  split
  · split
    · exact Or.inr rfl
    · exact Or.inl rfl
  · exact Or.inl rfl

/-! ### Partition characterization -/

theorem plansFold_general (q dc : Nat) (P0 : List DevicePlan) (o0 : Nat) :
    (List.range dc).foldl
      (fun acc (_ : Nat) => (acc.1 ++ [DevicePlan.mk acc.2 q], acc.2 + q)) (P0, o0) =
      (P0 ++ (List.range dc).map (fun i => DevicePlan.mk (o0 + i * q) q), o0 + dc * q) := by
  induction dc with
  | zero => simp
  | succ m ih =>
    rw [List.range_succ, List.foldl_append, ih, List.foldl_cons, List.foldl_nil]
    dsimp only
    rw [List.map_append]
    refine congrArg₂ Prod.mk ?_ ?_
    · rw [List.append_assoc]
      rfl
    · rw [Nat.succ_mul]
      omega

theorem set_append_last {α} (l1 : List α) (a v : α) :
    (l1 ++ [a]).set l1.length v = l1 ++ [v] := by
  induction l1 with
  | nil => rfl
  | cons x l1 ih =>
    rw [List.cons_append, List.length_cons, List.set_cons_succ, ih, List.cons_append]

theorem getD_append_length {α} (l1 : List α) (a : α) (l2 : List α) (d : α) :
    (l1 ++ a :: l2).getD l1.length d = a := by
  induction l1 with
  | nil => rfl
  | cons x l1 ih =>
    rw [List.cons_append, List.length_cons]
    exact ih

theorem buildPlans_eq (numResults dc : Nat) (hdc : 0 < dc) :
    buildPlans numResults dc =
      (List.range (dc - 1)).map
        (fun i => DevicePlan.mk (i * (numResults / dc)) (numResults / dc)) ++
      [DevicePlan.mk ((dc - 1) * (numResults / dc))
        (numResults / dc + (numResults - dc * (numResults / dc)))] := by
  obtain ⟨m, rfl⟩ : ∃ m, dc = m + 1 := ⟨dc - 1, by omega⟩
  unfold buildPlans
  simp only [plansFold_general, List.nil_append, Nat.zero_add, Nat.add_sub_cancel]
  have hle : (m + 1) * ((numResults) / (m + 1)) ≤ numResults := by
    rw [Nat.mul_comm]
    exact Nat.div_mul_le_self numResults (m + 1)
  set q := numResults / (m + 1) with hq
  have hmap : (List.range (m + 1)).map (fun i => DevicePlan.mk (i * q) q) =
      (List.range m).map (fun i => DevicePlan.mk (i * q) q) ++ [DevicePlan.mk (m * q) q] := by
    rw [List.range_succ, List.map_append]
    rfl
  split
  · rename_i hrem
    have hlast : ((List.range (m + 1)).map (fun i => DevicePlan.mk (i * q) q)).getD m
        (DevicePlan.mk 0 0) = DevicePlan.mk (m * q) q := by
      rw [hmap]
      have hlen : ((List.range m).map (fun i => DevicePlan.mk (i * q) q)).length = m := by
        simp
      calc ((List.range m).map (fun i => DevicePlan.mk (i * q) q) ++
            [DevicePlan.mk (m * q) q]).getD m (DevicePlan.mk 0 0)
          = ((List.range m).map (fun i => DevicePlan.mk (i * q) q) ++
            DevicePlan.mk (m * q) q :: []).getD
              ((List.range m).map (fun i => DevicePlan.mk (i * q) q)).length
              (DevicePlan.mk 0 0) := by rw [hlen]
        _ = DevicePlan.mk (m * q) q := getD_append_length _ _ _ _
    rw [hlast, hmap]
    dsimp only
    have hlen : ((List.range m).map (fun i => DevicePlan.mk (i * q) q)).length = m := by
      simp
    calc ((List.range m).map (fun i => DevicePlan.mk (i * q) q) ++
          [DevicePlan.mk (m * q) q]).set m
            (DevicePlan.mk (m * q) (q + (numResults - (m + 1) * q)))
        = ((List.range m).map (fun i => DevicePlan.mk (i * q) q) ++
          [DevicePlan.mk (m * q) q]).set
            ((List.range m).map (fun i => DevicePlan.mk (i * q) q)).length
            (DevicePlan.mk (m * q) (q + (numResults - (m + 1) * q))) := by rw [hlen]
      _ = _ := set_append_last _ _ _
  · rename_i hrem
    push_neg at hrem
    have heq : numResults - (m + 1) * q = 0 := by omega
    rw [heq, hmap, Nat.add_zero]

theorem join_ranges_off (o q : Nat) : ∀ m : Nat,
    (((List.range m).map (fun i => List.range' (o + i * q) q))).flatten =
      List.range' o (m * q) := by
  intro m
  induction m with
  | zero => simp
  | succ m ih =>
    rw [List.range_succ, List.map_append, List.flatten_append, ih]
    have h1 : ((List.map (fun i => List.range' (o + i * q) q) [m])).flatten =
        List.range' (o + m * q) q := by
      simp
    rw [h1]
    have h2 := List.range'_append o (m * q) q 1
    simp only [Nat.one_mul] at h2
    rw [h2, Nat.succ_mul, Nat.add_comm q (m * q)]

theorem buildPlans_cover (numResults dc : Nat) (hdc : 0 < dc) :
    (((buildPlans numResults dc).map
      (fun p => List.range' p.sourceOffset p.numResults))).flatten =
      List.range numResults := by
  obtain ⟨m, rfl⟩ : ∃ m, dc = m + 1 := ⟨dc - 1, by omega⟩
  rw [buildPlans_eq _ _ hdc]
  simp only [Nat.add_sub_cancel]
  rw [List.map_append, List.flatten_append, List.map_map]
  have hle : (m + 1) * (numResults / (m + 1)) ≤ numResults := by
    rw [Nat.mul_comm]
    exact Nat.div_mul_le_self numResults (m + 1)
  set q := numResults / (m + 1) with hq
  have hcomp : ((fun p : DevicePlan => List.range' p.sourceOffset p.numResults) ∘
      (fun i => DevicePlan.mk (i * q) q)) = fun i => List.range' (0 + i * q) q := by
    funext i
    simp
  rw [hcomp, join_ranges_off 0 q m]
  have h1 : ((([DevicePlan.mk (m * q) (q + (numResults - (m + 1) * q))]).map
      (fun p => List.range' p.sourceOffset p.numResults))).flatten =
      List.range' (m * q) (q + (numResults - (m + 1) * q)) := by
    simp
  rw [h1]
  have h2 := List.range'_append 0 (m * q) (q + (numResults - (m + 1) * q)) 1
  simp only [Nat.one_mul, Nat.zero_add] at h2
  rw [h2, List.range_eq_range']
  have h3 : (m + 1) * q = m * q + q := by ring
  have h4 : q + (numResults - (m + 1) * q) + m * q = numResults := by omega
  rw [h4]

theorem buildPlansGPUandCPU_eq (numResults G C : Nat) (_hG : 0 < G) (hC : 0 < C) :
    buildPlansGPUandCPU numResults G C =
      (List.range G).map
        (fun i => DevicePlan.mk (i * (numResults / (G + C))) (numResults / (G + C))) ++
      ((List.range (C - 1)).map (fun _ => DevicePlan.mk (G * (numResults / (G + C))) 0) ++
      [DevicePlan.mk (G * (numResults / (G + C)))
        (numResults - G * (numResults / (G + C)))]) := by
  obtain ⟨c, rfl⟩ : ∃ c, C = c + 1 := ⟨C - 1, by omega⟩
  unfold buildPlansGPUandCPU
  simp only [Nat.div_one, Nat.sub_self, plansFold_general]
  simp only [Nat.zero_add, Nat.mul_zero, Nat.add_zero, List.nil_append, Nat.add_sub_cancel]
  set rpg := numResults / (G + (c + 1)) with hrpg
  have hmapC : (List.range (c + 1)).map (fun _ : Nat => DevicePlan.mk (G * rpg) 0) =
      (List.range c).map (fun _ : Nat => DevicePlan.mk (G * rpg) 0) ++
        [DevicePlan.mk (G * rpg) 0] := by
    rw [List.range_succ, List.map_append]
    rfl
  have hlen1 : ((List.range G).map
      (fun i => DevicePlan.mk (i * rpg) rpg)).length = G := by simp
  have hlen2 : ((List.range c).map
      (fun _ : Nat => DevicePlan.mk (G * rpg) 0)).length = c := by simp
  split
  · rename_i hrem
    have hsplit : (List.range G).map (fun i => DevicePlan.mk (i * rpg) rpg) ++
        (List.range (c + 1)).map (fun _ : Nat => DevicePlan.mk (G * rpg) 0) =
        ((List.range G).map (fun i => DevicePlan.mk (i * rpg) rpg) ++
          (List.range c).map (fun _ : Nat => DevicePlan.mk (G * rpg) 0)) ++
          [DevicePlan.mk (G * rpg) 0] := by
      rw [hmapC, List.append_assoc]
    rw [hsplit]
    have hlen3 : ((List.range G).map (fun i => DevicePlan.mk (i * rpg) rpg) ++
        (List.range c).map (fun _ : Nat => DevicePlan.mk (G * rpg) 0)).length = G + c := by
      rw [List.length_append, hlen1, hlen2]
    have hpos : G + (c + 1) - 1 = ((List.range G).map (fun i => DevicePlan.mk (i * rpg) rpg) ++
        (List.range c).map (fun _ : Nat => DevicePlan.mk (G * rpg) 0)).length := by
      rw [hlen3]
      omega
    rw [hpos, getD_append_length, set_append_last]
    dsimp only
    rw [List.append_assoc, Nat.zero_add]
  · rename_i hrem
    push_neg at hrem
    have hle : G * rpg ≤ numResults := by
      have h1 : G * rpg ≤ (G + (c + 1)) * rpg :=
        Nat.mul_le_mul_right rpg (Nat.le_add_right G (c + 1))
      have h2 : (G + (c + 1)) * rpg ≤ numResults := by
        rw [Nat.mul_comm]
        exact Nat.div_mul_le_self numResults (G + (c + 1))
      exact le_trans h1 h2
    have heq : numResults - G * rpg = 0 := by omega
    rw [heq, hmapC]

theorem buildPlansGPUandCPU_cover (numResults G C : Nat) (hG : 0 < G) (hC : 0 < C) :
    (((buildPlansGPUandCPU numResults G C).map
      (fun p => List.range' p.sourceOffset p.numResults))).flatten =
      List.range numResults := by
  rw [buildPlansGPUandCPU_eq numResults G C hG hC]
  set rpg := numResults / (G + C) with hrpg
  have hle : G * rpg ≤ numResults := by
    have h1 : G * rpg ≤ (G + C) * rpg :=
      Nat.mul_le_mul_right rpg (Nat.le_add_right G C)
    have h2 : (G + C) * rpg ≤ numResults := by
      rw [Nat.mul_comm]
      exact Nat.div_mul_le_self numResults (G + C)
    exact le_trans h1 h2
  rw [List.map_append, List.flatten_append, List.map_map]
  have hcomp : ((fun p : DevicePlan => List.range' p.sourceOffset p.numResults) ∘
      (fun i => DevicePlan.mk (i * rpg) rpg)) = fun i => List.range' (0 + i * rpg) rpg := by
    funext i
    simp
  rw [hcomp, join_ranges_off 0 rpg G]
  rw [List.map_append, List.flatten_append, List.map_map]
  have hmid : ((List.range (C - 1)).map
      ((fun p : DevicePlan => List.range' p.sourceOffset p.numResults) ∘
        (fun _ => DevicePlan.mk (G * rpg) 0))).flatten = [] := by
    induction (C - 1) with
    | zero => rfl
    | succ c ih =>
      rw [List.range_succ, List.map_append, List.flatten_append, ih]
      simp
  rw [hmid]
  have hlast : (([DevicePlan.mk (G * rpg) (numResults - G * rpg)]).map
      (fun p => List.range' p.sourceOffset p.numResults)).flatten =
      List.range' (G * rpg) (numResults - G * rpg) := by
    simp
  rw [List.nil_append, hlast]
  have h2 := List.range'_append 0 (G * rpg) (numResults - G * rpg) 1
  simp only [Nat.one_mul, Nat.zero_add] at h2
  rw [h2, List.range_eq_range']
  have h4 : numResults - G * rpg + G * rpg = numResults := by omega
  rw [h4]

/-! ### Pointer-offset slicing of the output buffer -/

theorem take_set_of_le {α} (l : List α) (n i : Nat) (v : α) (h : n ≤ i) :
    (l.set i v).take n = l.take n := by
  rw [List.set_take]
  exact List.set_eq_of_length_le (le_trans (List.length_take_le n l) h)

theorem set_split (l : List ℚ) (X j : Nat) (v : ℚ) :
    l.set (X + j) v = l.take X ++ (l.drop X).set j v := by
  conv_lhs => rw [← List.take_append_drop X (l.set (X + j) v)]
  rw [take_set_of_le l X (X + j) v (Nat.le_add_right X j)]
  congr 1
  exact List.set_drop.symm

theorem writeRow_nil (off : Nat) (row : List ℚ) : writeRow [] off row = [] :=
  List.length_eq_zero.1 (by rw [writeRow_length]; rfl)

theorem writeFold_split (row : List ℚ) (X o : Nat) (L : List Nat) (buf : List ℚ) :
    L.foldl (fun b t => b.set (X + o + t) (row.getD t 0)) buf =
      buf.take X ++ L.foldl (fun b t => b.set (o + t) (row.getD t 0)) (buf.drop X) := by
  induction L generalizing buf with
  | nil => exact (List.take_append_drop X buf).symm
  | cons t L ih =>
    rw [List.foldl_cons, List.foldl_cons, ih]
    congr 1
    · exact take_set_of_le buf X (X + o + t) _ (by omega)
    · congr 1
      rw [show X + o + t = X + (o + t) from by omega]
      exact List.set_drop.symm

theorem writeRow_split (buf : List ℚ) (X o : Nat) (row : List ℚ) :
    writeRow buf (X + o) row = buf.take X ++ writeRow (buf.drop X) o row :=
  writeFold_split row X o _ buf

theorem getD_drop_nat (l : List Nat) (o i : Nat) : (l.drop o).getD i 0 = l.getD (o + i) 0 := by
  simp [List.getD_eq_getElem?_getD, List.getElem?_drop]

theorem runDijkstraRef_drop_srcs (g : GraphData) (srcs : List Nat) (off : Nat) (b : List ℚ)
    (cnt : Nat) : runDijkstraRef g (srcs.drop off) b cnt =
      (List.range cnt).foldl
        (fun b i =>
          writeRow b (i * g.vertexCount) (refRunQuery g (srcs.getD (off + i) 0)).costArray)
        b := by
  unfold runDijkstraRef
  simp only [getD_drop_nat]

theorem writeRows_split (g : GraphData) (rowF : Nat → List ℚ) (off : Nat) (L : List Nat)
    (buf : List ℚ) :
    buf.take (off * g.vertexCount) ++
      L.foldl (fun b i => writeRow b (i * g.vertexCount) (rowF (off + i)))
        (buf.drop (off * g.vertexCount)) =
      L.foldl (fun b i => writeRow b ((off + i) * g.vertexCount) (rowF (off + i))) buf := by
  induction L generalizing buf with
  | nil => exact List.take_append_drop _ buf
  | cons t L ih =>
    rw [List.foldl_cons, List.foldl_cons]
    have hsplit : writeRow buf ((off + t) * g.vertexCount) (rowF (off + t)) =
        buf.take (off * g.vertexCount) ++
          writeRow (buf.drop (off * g.vertexCount)) (t * g.vertexCount) (rowF (off + t)) := by
      rw [show (off + t) * g.vertexCount = off * g.vertexCount + t * g.vertexCount from by ring]
      exact writeRow_split buf _ _ _
    rw [← ih (writeRow buf ((off + t) * g.vertexCount) (rowF (off + t)))]
    rcases le_or_lt (off * g.vertexCount) buf.length with hle | hgt
    · have hlenA : (buf.take (off * g.vertexCount)).length = off * g.vertexCount := by
        rw [List.length_take]
        omega
      congr 1
      · rw [hsplit, List.take_left' hlenA]
      · congr 1
        rw [hsplit, List.drop_left' hlenA]
    · have hdropnil : buf.drop (off * g.vertexCount) = [] :=
        List.drop_eq_nil_of_le (le_of_lt hgt)
      have htakeall : buf.take (off * g.vertexCount) = buf :=
        List.take_of_length_le (le_of_lt hgt)
      have hWnil : writeRow (buf.drop (off * g.vertexCount)) (t * g.vertexCount)
          (rowF (off + t)) = [] := by
        rw [hdropnil]
        exact writeRow_nil _ _
      have hsplit2 : writeRow buf ((off + t) * g.vertexCount) (rowF (off + t)) = buf := by
        rw [hsplit, hWnil, htakeall, List.append_nil]
      congr 1
      · rw [hsplit2, htakeall]
      · congr 1
        rw [hsplit2, hdropnil]
        exact writeRow_nil _ _

/-! ### Example graphs for concrete instantiations -/

/-- The triangle graph of spec §8, example 1: 3 vertices, edges
(0→1, w=1), (1→2, w=2), (0→2, w=4). -/
def triangleGraph : GraphData where
  vertexCount := 3
  edgeCount := 3
  vertexArray := [0, 2, 3]
  edgeArray := [1, 2, 2]
  weightArray := [1, 2, 4]

/-- A 2-vertex graph with no edges: vertex 1 has no incoming or outgoing
edges (spec §8, example 2, shrunk). -/
def isolatedGraph : GraphData where
  vertexCount := 2
  edgeCount := 0
  vertexArray := [0, 0]
  edgeArray := []
  weightArray := []

/-! ### The claims -/

/-- Claim C2: one phase-1 sweep of the reference engine behaves exactly
as specified: a vertex `tid` with `mask[tid] = 0` performs no work and no
writes; a vertex with `mask[tid] = 1` clears its mask bit and, for every
outgoing edge index `e` in `[vertexArray[tid], vertexArray[tid+1])` — or
`[vertexArray[tid], edgeCount)` for the last vertex — lowers
`updatingCost[edgeArray[e]]` to
`min(updatingCost[edgeArray[e]], cost[tid] + weightArray[e])`, reading
the weight at the edge index `e` (not at the destination id), and leaves
the cost array untouched; the sweep runs this body for
`tid = 0, …, vertexCount-1` in increasing order. -/
theorem claim_C2_phase1_sweep (g : GraphData) (st : RefState) :
    (∀ tid, maskAt st tid = 0 → refKernel1Vertex g st tid = st) ∧
    (∀ tid, maskAt st tid = 1 →
      refKernel1Vertex g st tid =
        { maskArray := st.maskArray.set tid 0
          costArray := st.costArray
          updatingCostArray :=
            (List.range' (g.vertexArray.getD tid 0)
                ((if tid + 1 < g.vertexCount then g.vertexArray.getD (tid + 1) 0
                  else g.edgeCount) - g.vertexArray.getD tid 0)).foldl
              (fun u e =>
                u.set (g.edgeArray.getD e 0)
                  (min (u.getD (g.edgeArray.getD e 0) 0)
                    (costAt st tid + g.weightArray.getD e 0)))
              st.updatingCostArray }) ∧
    refKernel1Sweep g st = (List.range g.vertexCount).foldl (refKernel1Vertex g) st := by
  refine ⟨fun tid h => refKernel1Vertex_of_mask_eq_zero g st tid h, ?_, rfl⟩
  intro tid h
  rw [← specKernel1Vertex_eq g st tid (Or.inr h)]
  unfold specKernel1Vertex
  rw [if_pos h]
  rfl

/-- Witness for C2 on the triangle graph: vertex 1 is unmasked in the
initial state of source 0 and its phase-1 body is a no-op. -/
theorem claim_C2_phase1_sweep_witness :
    maskAt (refInitState triangleGraph 0) 1 = 0 ∧
      refKernel1Vertex triangleGraph (refInitState triangleGraph 0) 1 =
        refInitState triangleGraph 0 :=
  ⟨by decide, (claim_C2_phase1_sweep triangleGraph (refInitState triangleGraph 0)).1 1
    (by decide)⟩

/-- Claim C3: one phase-2 sweep of the reference engine behaves exactly
as specified: for every vertex `tid`, if `cost[tid] > updatingCost[tid]`
then the sweep commits `cost[tid] := updatingCost[tid]` and sets
`mask[tid] := 1`, otherwise it leaves both unchanged; in all cases it
then sets `updatingCost[tid] := cost[tid]`, so that after the sweep
`updatingCost[v] = cost[v]` for every vertex `v`. -/
theorem claim_C3_phase2_sweep (g : GraphData) (st : RefState) (hw : RefStateWF g st) :
    (∀ tid, tid < g.vertexCount →
      (costAt st tid > updAt st tid →
        costAt (refKernel2Sweep g st) tid = updAt st tid ∧
          maskAt (refKernel2Sweep g st) tid = 1) ∧
      (¬ costAt st tid > updAt st tid →
        costAt (refKernel2Sweep g st) tid = costAt st tid ∧
          maskAt (refKernel2Sweep g st) tid = maskAt st tid) ∧
      updAt (refKernel2Sweep g st) tid = costAt (refKernel2Sweep g st) tid) ∧
    (∀ v, updAt (refKernel2Sweep g st) v = costAt (refKernel2Sweep g st) v) := by
  have hchar := fun tid (htid : tid < g.vertexCount) => refKernel2Sweep_char g st tid htid hw
  have hW : RefStateWF g (refKernel2Sweep g st) := RefStateWF_k2Sweep g st hw
  constructor
  · intro tid htid
    obtain ⟨hc, hu, hm⟩ := hchar tid htid
    refine ⟨fun hgt => ⟨?_, ?_⟩, fun hle => ⟨?_, ?_⟩, ?_⟩
    · rw [hc]
      exact min_eq_right (le_of_lt hgt)
    · rw [hm, if_pos (show updAt st tid < costAt st tid from hgt)]
    · rw [hc]
      exact min_eq_left (le_of_not_lt hle)
    · rw [hm, if_neg (show ¬ updAt st tid < costAt st tid from hle)]
    · rw [hc, hu]
  · intro v
    rcases Nat.lt_or_ge v g.vertexCount with hv | hv
    · obtain ⟨hc, hu, _⟩ := hchar v hv
      rw [hc, hu]
    · rw [updAt_oob g _ v hW hv, costAt_oob g _ v hW hv]

/-- Witness for C3 on the triangle graph: after one phase-2 sweep from
the initial state of source 0, `updatingCost` and `cost` agree at
vertex 1. -/
theorem claim_C3_phase2_sweep_witness :
    RefStateWF triangleGraph (refInitState triangleGraph 0) ∧
      updAt (refKernel2Sweep triangleGraph (refInitState triangleGraph 0)) 1 =
        costAt (refKernel2Sweep triangleGraph (refInitState triangleGraph 0)) 1 :=
  ⟨by decide,
    (claim_C3_phase2_sweep triangleGraph (refInitState triangleGraph 0) (by decide)).2 1⟩

/-- Claim C4: in the reference engine's per-query loop, `cost[v]` never
increases: one phase-1-then-phase-2 iteration can only lower each
vertex's cost (a commit happens only under the `cost > updatingCost`
guard), and consequently the whole fueled loop is non-increasing. -/
theorem claim_C4_cost_monotone :
    (∀ (g : GraphData) (st : RefState) (v : Nat),
      costAt (refIteration g st) v ≤ costAt st v) ∧
    (∀ (g : GraphData) (fuel : Nat) (st : RefState) (v : Nat),
      costAt (dijkstraLoop g fuel st) v ≤ costAt st v) :=
  ⟨fun g st v => refIteration_cost_le g st v,
    fun g fuel st v => dijkstraLoop_cost_le g fuel st v⟩

/-- Claim C5: for every CSR-well-formed graph with non-negative weights
and every valid source, the reference engine's per-query while loop
terminates: after at most `vertexCount` phase-1/phase-2 iterations the
mask array is empty, and in particular the loop run with fuel
`vertexCount` (the embedded `runDijkstraRef` loop) ends with an empty
mask array. -/
theorem claim_C5_termination (g : GraphData) (hwf : WFGraph g) (hng : NonNegWeights g)
    (s : Nat) (hs : s < g.vertexCount) :
    maskArrayEmpty (refIterate g g.vertexCount (refInitState g s)).maskArray = true ∧
      maskArrayEmpty (refRunQuery g s).maskArray = true :=
  ⟨maskArrayEmpty_of_getD _ (fun i _ => refIterate_mask_empty g hwf hng s hs i),
    refRunQuery_mask_empty g hwf hng s hs⟩

/-- Witness for C5 on the triangle graph with source 0. -/
theorem claim_C5_termination_witness :
    WFGraph triangleGraph ∧ NonNegWeights triangleGraph ∧ 0 < triangleGraph.vertexCount ∧
      maskArrayEmpty (refRunQuery triangleGraph 0).maskArray = true :=
  ⟨by decide, by decide, by decide,
    (claim_C5_termination triangleGraph (by decide) (by decide) 0 (by decide)).2⟩

/-- Claim C6: for every CSR-well-formed graph with non-negative weights,
every batch of valid source vertices and every correctly sized output
buffer, after `runDijkstraRef` returns, the output entry
`outResultCosts[i * vertexCount + sourceVertices[i]]` equals 0 for every
query `i`. -/
theorem claim_C6_source_cost_zero (g : GraphData) (hwf : WFGraph g)
    (hng : NonNegWeights g) (srcs : List Nat) (numResults : Nat)
    (hsrc : ∀ i < numResults, srcs.getD i 0 < g.vertexCount) (out : List ℚ)
    (hout : out.length = numResults * g.vertexCount) (i : Nat) (hi : i < numResults) :
    (runDijkstraRef g srcs out numResults).getD
      (i * g.vertexCount + srcs.getD i 0) 0 = 0 := by
  rw [runDijkstraRef_getD g srcs out numResults (le_of_eq hout.symm) i _ hi (hsrc i hi)]
  exact refRunQuery_cost_source g hwf hng _ (hsrc i hi)

/-- Witness for C6: the triangle graph, a single query from source 0. -/
theorem claim_C6_source_cost_zero_witness :
    WFGraph triangleGraph ∧
      (runDijkstraRef triangleGraph [0] (List.replicate 3 0) 1).getD
        (0 * triangleGraph.vertexCount + List.getD [0] 0 0) 0 = 0 :=
  ⟨by decide, claim_C6_source_cost_zero triangleGraph (by decide) (by decide) [0] 1
    (by decide) (List.replicate 3 0) (by decide) 0 (by decide)⟩

/-- Claim C7: for every CSR-well-formed graph with non-negative weights
and every query with source `s`, every vertex `v` unreachable from `s`
ends with its output cost equal to the sentinel `FLT_MAX`, the exact
value it was initialized to; in particular, a vertex with no incoming
edges that is not the source is unreachable (so it reports the
sentinel). -/
theorem claim_C7_unreachable_sentinel (g : GraphData) (hwf : WFGraph g)
    (hng : NonNegWeights g) (srcs : List Nat) (numResults : Nat)
    (hsrc : ∀ i < numResults, srcs.getD i 0 < g.vertexCount) (out : List ℚ)
    (hout : out.length = numResults * g.vertexCount) (i : Nat) (hi : i < numResults)
    (v : Nat) (hv : v < g.vertexCount) :
    (¬ Reaches g (srcs.getD i 0) v →
      (runDijkstraRef g srcs out numResults).getD (i * g.vertexCount + v) 0 = FLT_MAX) ∧
    (v ∉ g.edgeArray → v ≠ srcs.getD i 0 → ¬ Reaches g (srcs.getD i 0) v) := by
  constructor
  · intro hur
    rw [runDijkstraRef_getD g srcs out numResults (le_of_eq hout.symm) i v hi hv]
    exact refRunQuery_unreachable g hwf hng _ (hsrc i hi) v hv hur
  · intro hnoin hne
    exact not_reaches_of_not_mem g hwf _ v hnoin hne

/-- Witness for C7: in the 2-vertex edgeless graph with source 0,
vertex 1 is unreachable and its output cost is the sentinel. -/
theorem claim_C7_unreachable_sentinel_witness :
    ¬ Reaches isolatedGraph 0 1 ∧
      (runDijkstraRef isolatedGraph [0] (List.replicate 2 0) 1).getD
        (0 * isolatedGraph.vertexCount + 1) 0 = FLT_MAX := by
  have h := claim_C7_unreachable_sentinel isolatedGraph (by decide) (by decide) [0] 1
    (by decide) (List.replicate 2 0) (by decide) 0 (by decide) 1 (by decide)
  have hur : ¬ Reaches isolatedGraph 0 1 := h.2 (by decide) (by decide)
  exact ⟨hur, h.1 hur⟩

/-- The 8-vertex graph with the single edge 5→0 of weight 1, in CSR
form: only vertex 5 has an outgoing edge range (`[0, 1)`). -/
def bugGraph : GraphData where
  vertexCount := 8
  edgeCount := 1
  vertexArray := [0, 0, 0, 0, 0, 0, 1, 1]
  edgeArray := [0]
  weightArray := [1]

theorem one_lt_FLT_MAX : (1 : ℚ) < FLT_MAX := by
  norm_num [FLT_MAX]

theorem LoopInv_final_relax (g : GraphData) (s k : Nat) (st : RefState)
    (hinv : LoopInv g s k st) (hempty : maskArrayEmpty st.maskArray = true)
    (u : Nat) (hu : u < g.vertexCount) (e : Nat)
    (he1 : g.vertexArray.getD u 0 ≤ e) (he2 : e < edgeEnd g u) :
    costAt st (g.edgeArray.getD e 0) ≤ costAt st u + g.weightArray.getD e 0 := by
  apply hinv.2.2.2.2.2.2.2 u hu ?_ e he1 he2
  rcases hinv.2.1 u with h0 | h1
  · exact h0
  · exfalso
    have hlen : u < st.maskArray.length := by
      rw [hinv.1.1]
      exact hu
    have hmem : st.maskArray.getD u 0 ∈ st.maskArray := getD_mem _ _ _ hlen
    have hne1 := (maskArrayEmpty_iff st.maskArray).1 hempty _ hmem
    simp only [maskAt] at h1
    exact hne1 h1

theorem refRunQuery_relaxed (g : GraphData) (hwf : WFGraph g) (hng : NonNegWeights g)
    (s : Nat) (hs : s < g.vertexCount) (u : Nat) (hu : u < g.vertexCount) (e : Nat)
    (he1 : g.vertexArray.getD u 0 ≤ e) (he2 : e < edgeEnd g u) :
    costAt (refRunQuery g s) (g.edgeArray.getD e 0) ≤
      costAt (refRunQuery g s) u + g.weightArray.getD e 0 := by
  obtain ⟨j, hinv⟩ := refRunQuery_inv g hwf hng s hs
  exact LoopInv_final_relax g s j _ hinv (refRunQuery_mask_empty g hwf hng s hs) u hu e he1 he2

theorem refRunQuery_cost_achieved (g : GraphData) (hwf : WFGraph g) (hng : NonNegWeights g)
    (s : Nat) (hs : s < g.vertexCount) (v : Nat) (hv : v < g.vertexCount) :
    costAt (refRunQuery g s) v = FLT_MAX ∨
      ∃ es, pathOk g s es v ∧ costAt (refRunQuery g s) v = pathWeight g es := by
  obtain ⟨j, hinv⟩ := refRunQuery_inv g hwf hng s hs
  rcases hinv.2.2.2.2.2.1 v hv with h | ⟨es, hp, _, hc⟩
  · exact Or.inl h
  · exact Or.inr ⟨es, hp, hc⟩

theorem bugGraph_path_weight (es : List Nat) (hp : pathOk bugGraph 5 es 0) :
    pathWeight bugGraph es = 1 := by
  cases es with
  | nil =>
    have h : (5 : Nat) = 0 := hp
    exact absurd h (by decide)
  | cons e es' =>
    simp only [pathOk] at hp
    obtain ⟨h5, hle, hlt, hrest⟩ := hp
    have hva : bugGraph.vertexArray.getD 5 0 = 0 := rfl
    have hee : edgeEnd bugGraph 5 = 1 := rfl
    have he : e = 0 := by omega
    subst he
    have hdest : bugGraph.edgeArray.getD 0 0 = 0 := rfl
    rw [hdest] at hrest
    cases es' with
    | nil =>
      have hw : bugGraph.weightArray.getD 0 0 = 1 := rfl
      rw [pathWeight_cons, pathWeight_nil, hw, add_zero]
    | cons e2 es2 =>
      simp only [pathOk] at hrest
      obtain ⟨h0, hle2, hlt2, _⟩ := hrest
      have hva0 : bugGraph.vertexArray.getD 0 0 = 0 := rfl
      have hee0 : edgeEnd bugGraph 0 = 0 := rfl
      omega

set_option maxRecDepth 100000 in
theorem bugGraph_ref_cost : costAt (refRunQuery bugGraph 5) 0 = 1 := by
  have hwfb : WFGraph bugGraph := by decide
  have hngb : NonNegWeights bugGraph := by decide
  have h1 : costAt (refRunQuery bugGraph 5) 0 ≤ 1 := by
    have h := refRunQuery_relaxed bugGraph hwfb hngb 5 (by decide) 5 (by decide) 0
      (by decide) (by decide)
    have hdest : bugGraph.edgeArray.getD 0 0 = 0 := rfl
    have hw : bugGraph.weightArray.getD 0 0 = 1 := rfl
    rw [hdest, hw, refRunQuery_cost_source bugGraph hwfb hngb 5 (by decide)] at h
    rwa [zero_add] at h
  rcases refRunQuery_cost_achieved bugGraph hwfb hngb 5 (by decide) 0 (by decide) with
    hfm | ⟨es, hp, hc⟩
  · exfalso
    rw [hfm] at h1
    exact absurd h1 (not_le.2 one_lt_FLT_MAX)
  · rw [hc, bugGraph_path_weight es hp]

/-- Claim C1 (code bug): the claimed agreement between the
device-parallel engine and the reference engine fails on the code as
written.  The host convergence test of `runDijkstra` reads back only
`sizeof(unsigned char) * vertexCount` bytes of the `int` mask array
(lines 330 and 352), so it sees only the first `vertexCount / 4` mask
entries plus the host array's stale tail.  On the CSR-well-formed,
non-negatively weighted 8-vertex graph with the single edge 5→0 and
valid source 5, the only set mask bit (index 5) lies outside the
transferred prefix, so the host loop exits before any relaxation and the
device engine reports the initialization cost `FLT_MAX` at vertex 0,
where the reference engine computes cost 1 — a disagreement beyond any
tolerance.  The `sizeof(int) * vertexCount` allocation of the very array
at line 314, the full-size cost read at line 360, and the spec's
full-mask inspection show the full read was the intent and the byte
count a slip: the claim indicts the code, not the spec. -/
theorem claim_C1_partial_mask_read_diverges :
    WFGraph bugGraph ∧ NonNegWeights bugGraph ∧ 5 < bugGraph.vertexCount ∧
    (runDijkstra bugGraph [5] (List.replicate 8 0) 1).getD 0 0 = FLT_MAX ∧
    (runDijkstraRef bugGraph [5] (List.replicate 8 0) 1).getD 0 0 = 1 ∧
    runDijkstra bugGraph [5] (List.replicate 8 0) 1 ≠
      runDijkstraRef bugGraph [5] (List.replicate 8 0) 1 := by
  have hdev : (runDijkstra bugGraph [5] (List.replicate 8 0) 1).getD 0 0 = FLT_MAX := rfl
  have href : (runDijkstraRef bugGraph [5] (List.replicate 8 0) 1).getD 0 0 = 1 := by
    have h := runDijkstraRef_getD bugGraph [5] (List.replicate 8 0) 1 (by decide) 0 0
      (by decide) (by decide)
    simp only [Nat.zero_mul, Nat.zero_add] at h
    rw [h]
    exact bugGraph_ref_cost
  refine ⟨by decide, by decide, by decide, hdev, href, ?_⟩
  intro hEq
  have hcontr : FLT_MAX = (1 : ℚ) := by
    rw [← hdev, ← href, hEq]
  exact absurd hcontr (ne_of_gt one_lt_FLT_MAX)

/-- Claim C8: for every `numResults` and `deviceCount ≥ 1`, the GPU
partitioner assigns each device a contiguous slice of
`numResults / deviceCount` queries in enumeration order (plan `i` starts
at query offset `i * (numResults / deviceCount)`; its result-buffer
offset is the same query offset scaled by `vertexCount`), appends the
entire division remainder to the last device, and the slices cover all
`numResults` queries exactly once and in order; the heterogeneous
GPU+CPU partitioner's weighted slices also cover all queries exactly
once. -/
theorem claim_C8_partition (numResults deviceCount : Nat) (hdc : 0 < deviceCount) :
    (buildPlans numResults deviceCount).length = deviceCount ∧
    (∀ i, i + 1 < deviceCount →
      (buildPlans numResults deviceCount).getD i (DevicePlan.mk 0 0) =
        DevicePlan.mk (i * (numResults / deviceCount)) (numResults / deviceCount)) ∧
    (buildPlans numResults deviceCount).getD (deviceCount - 1) (DevicePlan.mk 0 0) =
      DevicePlan.mk ((deviceCount - 1) * (numResults / deviceCount))
        (numResults / deviceCount +
          (numResults - deviceCount * (numResults / deviceCount))) ∧
    (((buildPlans numResults deviceCount).map
      (fun p => List.range' p.sourceOffset p.numResults))).flatten =
      List.range numResults ∧
    (∀ G C, 0 < G → 0 < C →
      (((buildPlansGPUandCPU numResults G C).map
        (fun p => List.range' p.sourceOffset p.numResults))).flatten =
        List.range numResults) := by
  have heq := buildPlans_eq numResults deviceCount hdc
  have hlenmap : ((List.range (deviceCount - 1)).map
      (fun i => DevicePlan.mk (i * (numResults / deviceCount))
        (numResults / deviceCount))).length = deviceCount - 1 := by
    simp
  refine ⟨?_, ?_, ?_, buildPlans_cover numResults deviceCount hdc,
    fun G C hG hC => buildPlansGPUandCPU_cover numResults G C hG hC⟩
  · rw [heq, List.length_append, hlenmap]
    simp
    omega
  · intro i hilt
    rw [heq]
    have hget : ((List.range (deviceCount - 1)).map
        (fun i => DevicePlan.mk (i * (numResults / deviceCount))
          (numResults / deviceCount))).getD i (DevicePlan.mk 0 0) =
        DevicePlan.mk (i * (numResults / deviceCount)) (numResults / deviceCount) := by
      rw [getD_map_range, if_pos (by omega)]
    rw [← hget]
    rw [List.getD_eq_getElem?_getD, List.getD_eq_getElem?_getD,
      List.getElem?_append_left (by rw [hlenmap]; omega)]
  · rw [heq]
    calc ((List.range (deviceCount - 1)).map
          (fun i => DevicePlan.mk (i * (numResults / deviceCount))
            (numResults / deviceCount)) ++
          [DevicePlan.mk ((deviceCount - 1) * (numResults / deviceCount))
            (numResults / deviceCount +
              (numResults - deviceCount * (numResults / deviceCount)))]).getD
          (deviceCount - 1) (DevicePlan.mk 0 0)
        = ((List.range (deviceCount - 1)).map
          (fun i => DevicePlan.mk (i * (numResults / deviceCount))
            (numResults / deviceCount)) ++
          DevicePlan.mk ((deviceCount - 1) * (numResults / deviceCount))
            (numResults / deviceCount +
              (numResults - deviceCount * (numResults / deviceCount))) :: []).getD
          ((List.range (deviceCount - 1)).map
            (fun i => DevicePlan.mk (i * (numResults / deviceCount))
              (numResults / deviceCount))).length (DevicePlan.mk 0 0) := by
          rw [hlenmap]
      _ = _ := getD_append_length _ _ _ _

/-- Witness for C8: seven queries over three devices give slices of
2, 2 and 2+1 queries covering `0..6` in order. -/
theorem claim_C8_partition_witness :
    (0 : Nat) < 3 ∧
      (((buildPlans 7 3).map (fun p => List.range' p.sourceOffset p.numResults))).flatten =
        List.range 7 :=
  ⟨by decide, (claim_C8_partition 7 3 (by decide)).2.2.2.1⟩

/-- Claim C9: with zero devices the multi-device entry points are a
fatal configuration error and no partition is attempted:
`runDijkstraMultiGPU` (and `runDijkstraMultiGPUandCPU` when either
context has zero devices) returns before running any worker, leaving the
output buffer entirely unmodified. -/
theorem claim_C9_zero_devices (g : GraphData) (srcs : List Nat) (out : List ℚ)
    (numResults : Nat) :
    runDijkstraMultiGPU g 0 srcs out numResults = out ∧
    (∀ G C, G = 0 ∨ C = 0 →
      runDijkstraMultiGPUandCPU g G C srcs out numResults = out) := by
  constructor
  · unfold runDijkstraMultiGPU
    rw [if_pos rfl]
  · intro G C h
    unfold runDijkstraMultiGPUandCPU
    rcases h with rfl | rfl
    · rw [if_pos rfl]
    · rcases Nat.eq_zero_or_pos G with rfl | hG
      · rw [if_pos rfl]
      · rw [if_neg (by omega), if_pos rfl]

/-- Witness for C9: with no CPU device the heterogeneous entry point
leaves the buffer unchanged. -/
theorem claim_C9_zero_devices_witness :
    runDijkstraMultiGPUandCPU triangleGraph 2 0 [0] (List.replicate 3 0) 1 =
      List.replicate 3 0 :=
  (claim_C9_zero_devices triangleGraph [0] (List.replicate 3 0) 1).2 2 0 (Or.inr rfl)

/-- Claim C10: every state reachable in the reference engine's per-query
loop keeps every mask entry in {0, 1} (initialization writes only 0 or 1
and each phase-1/phase-2 iteration preserves the property, along every
fueled loop state); under this invariant `maskArrayEmpty` — which
returns `true` exactly when no entry equals 1 — coincides with "every
entry is 0", and the phase-1 activity test `mask[tid] ≠ 0` coincides
with `mask[tid] = 1`. -/
theorem claim_C10_mask_binary (g : GraphData) (s : Nat) :
    (∀ v, maskAt (refInitState g s) v = 0 ∨ maskAt (refInitState g s) v = 1) ∧
    (∀ st : RefState, (∀ v, maskAt st v = 0 ∨ maskAt st v = 1) →
      ∀ v, maskAt (refIteration g st) v = 0 ∨ maskAt (refIteration g st) v = 1) ∧
    (∀ k v, maskAt (refIterate g k (refInitState g s)) v = 0 ∨
      maskAt (refIterate g k (refInitState g s)) v = 1) ∧
    (∀ fuel v, maskAt (dijkstraLoop g fuel (refInitState g s)) v = 0 ∨
      maskAt (dijkstraLoop g fuel (refInitState g s)) v = 1) ∧
    (∀ m : List Int, maskArrayEmpty m = true ↔ ∀ x ∈ m, x ≠ 1) ∧
    (∀ m : List Int, (∀ x ∈ m, x = 0 ∨ x = 1) →
      (maskArrayEmpty m = true ↔ ∀ x ∈ m, x = 0)) ∧
    (∀ x : Int, x = 0 ∨ x = 1 → (x ≠ 0 ↔ x = 1)) := by
  have hiterate : ∀ k st, (∀ v, maskAt st v = 0 ∨ maskAt st v = 1) →
      ∀ v, maskAt (refIterate g k st) v = 0 ∨ maskAt (refIterate g k st) v = 1 := by
    intro k
    induction k with
    | zero => exact fun st h => h
    | succ k ih => exact fun st h => ih _ (refIteration_mask_binary g st h)
  have hloop : ∀ fuel st, (∀ v, maskAt st v = 0 ∨ maskAt st v = 1) →
      ∀ v, maskAt (dijkstraLoop g fuel st) v = 0 ∨
        maskAt (dijkstraLoop g fuel st) v = 1 := by
    intro fuel
    induction fuel with
    | zero => exact fun st h => h
    | succ fuel ih =>
      intro st h
      rw [dijkstraLoop]
      split
      · exact h
      · exact ih _ (refIteration_mask_binary g st h)
  refine ⟨refInitState_mask_binary g s, fun st h => refIteration_mask_binary g st h,
    fun k => hiterate k _ (refInitState_mask_binary g s),
    fun fuel => hloop fuel _ (refInitState_mask_binary g s),
    maskArrayEmpty_iff, ?_, ?_⟩
  · intro m hbin
    rw [maskArrayEmpty_iff]
    constructor
    · intro h x hx
      rcases hbin x hx with h0 | h1
      · exact h0
      · exact absurd h1 (h x hx)
    · intro h x hx
      rw [h x hx]
      decide
  · intro x hx
    rcases hx with rfl | rfl
    · simp
    · constructor
      · intro _
        rfl
      · intro _
        decide

/-- Witness for C10: the loop states of the triangle-graph query from
source 0 have a binary mask, and on a concrete binary mask the emptiness
test coincides with all-zero. -/
theorem claim_C10_mask_binary_witness :
    (maskAt (refIterate triangleGraph 2 (refInitState triangleGraph 0)) 1 = 0 ∨
      maskAt (refIterate triangleGraph 2 (refInitState triangleGraph 0)) 1 = 1) ∧
      (maskArrayEmpty [0, 0, 0] = true ↔ ∀ x ∈ ([0, 0, 0] : List Int), x = 0) :=
  ⟨(claim_C10_mask_binary triangleGraph 0).2.2.1 2 1,
    (claim_C10_mask_binary triangleGraph 0).2.2.2.2.2.1 [0, 0, 0] (by decide)⟩

end OclDijkstra
